import Mathlib

/-!
Shallow embedding of `src/modules/availability.py`: a hotel-room availability
table stored as a CSV file, with two public operations
(`decrement_room_availability`, `increment_room_availability`) built from a
tolerant loader (`_safe_read_csv`), a staged fuzzy matcher (`_match_rows`) and
an atomic writer (`_atomic_write_csv`).

The table is modelled as a header (the pandas column list) plus rows, each row
an ordered association list from column name to cell value.  A cell is either
`na` (pandas NaN for a missing CSV field), a string (every field is read with
`dtype=str`), or an integer (the normalized `rooms_available` column and the
literal `0` assigned when that column is missing).
-/

namespace Hotel

/-- A pandas cell: NaN, a string (fields are read with `dtype=str`), or an
integer (the normalized `rooms_available` column). -/
inductive CVal where
  | na : CVal
  | str : String → CVal
  | int : Int → CVal
deriving DecidableEq, Repr

/-- A row: ordered association list from column name to cell value. -/
abbrev Row := List (String × CVal)

/-- A data frame: column list (pandas `df.columns`) plus the rows. -/
structure DF where
  header : List String
  rows : List Row
deriving DecidableEq, Repr

/-- Python `str(x)` on a cell: NaN prints as the string `"nan"`
(pandas `.astype(str)`), integers print in decimal. -/
def asStr : CVal → String
  | .na => "nan"
  | .str s => s
  | .int n => toString n

/-- Cell of a row at a column; `na` when the column is absent from the row. -/
def getCell (r : Row) (c : String) : CVal :=
  (r.lookup c).getD .na

/-- Overwrite the value stored at column `c` of a row (no-op when absent),
keeping the column order, like `df.at[i, c] = v` on an existing column. -/
def setCell (r : Row) (c : String) (v : CVal) : Row :=
  r.map (fun kv => if kv.1 = c then (kv.1, v) else kv)

/-- `c in df.columns`. -/
def hasCol (df : DF) (c : String) : Bool :=
  df.header.contains c

/-- `df[c] = v` for a fresh column: appended at the end of the column order,
with the same value in every row. -/
def addColConst (df : DF) (c : String) (v : CVal) : DF :=
  ⟨df.header ++ [c], df.rows.map (fun r => r ++ [(c, v)])⟩

/-- `df[c] = df[c].map f` on an existing column: every cell stored under `c`
is rewritten in place. -/
def mapCol (df : DF) (c : String) (f : CVal → CVal) : DF :=
  ⟨df.header, df.rows.map (fun r => r.map (fun kv => if kv.1 = c then (kv.1, f kv.2) else kv))⟩

/-- `df[c] = df.apply(f)` for a fresh column: appended at the end, each row's
value derived from that row. -/
def addColDerived (df : DF) (c : String) (f : Row → CVal) : DF :=
  ⟨df.header ++ [c], df.rows.map (fun r => r ++ [(c, f r)])⟩

/-- Row at positional index `i` (empty row when out of range). -/
def rowAt (df : DF) (i : Nat) : Row :=
  (df.rows.get? i).getD []

/-- Cell at positional index `i`, column `c`. -/
def getCellAt (df : DF) (i : Nat) (c : String) : CVal :=
  getCell (rowAt df i) c

/-- Replace the row at index `i` by `f` of itself. -/
def modifyRow (rs : List Row) (i : Nat) (f : Row → Row) : List Row :=
  match rs, i with
  | [], _ => []
  | r :: rest, 0 => f r :: rest
  | r :: rest, j + 1 => r :: modifyRow rest j f

/-- `df.at[i, c] = v` on an existing column. -/
def setCellAt (df : DF) (i : Nat) (c : String) (v : CVal) : DF :=
  ⟨df.header, modifyRow df.rows i (fun r => setCell r c v)⟩

/-- List-of-chars version of `p.isPrefixOf s`. -/
def pfxOf : List Char → List Char → Bool
  | [], _ => true
  | _ :: _, [] => false
  | a :: as, b :: bs => a == b && pfxOf as bs

/-- The characters Python's `str.strip()` removes: the `str.isspace`
whitespace set (ASCII whitespace, the C1 field separators, and the Unicode
space characters). -/
def pySpace (c : Char) : Bool :=
  [' ', '\t', '\n', '\r', '\x0B', '\x0C',
   '\u001C', '\u001D', '\u001E', '\u001F', '\u0085', '\u00A0',
   '\u1680', '\u2000', '\u2001', '\u2002', '\u2003', '\u2004', '\u2005',
   '\u2006', '\u2007', '\u2008', '\u2009', '\u200A',
   '\u2028', '\u2029', '\u202F', '\u205F', '\u3000'].contains c

/-- Python `str.strip()`: drop whitespace from both ends. -/
def stripWs (l : List Char) : List Char :=
  ((l.dropWhile pySpace).reverse.dropWhile pySpace).reverse

/-- Python `str.strip()` on a `String`. -/
def pyStrip (s : String) : String :=
  String.mk (stripWs s.data)

/-- Python `str.lower()` on one character, for the ASCII and Latin-1 letter
ranges (`A`–`Z` and `À`–`Þ` except `×`); Python's case mapping is fully
Unicode-aware, and mappings outside these ranges are beyond this model. -/
def pyLowerChar (c : Char) : Char :=
  if 'A' ≤ c ∧ c ≤ 'Z' then Char.ofNat (c.toNat + 32)
  else if 0xC0 ≤ c.toNat ∧ c.toNat ≤ 0xDE ∧ c.toNat ≠ 0xD7 then Char.ofNat (c.toNat + 32)
  else c

/-- Python `str.lower()` on a `String`. -/
def pyLower (s : String) : String :=
  String.mk (s.data.map pyLowerChar)

/-- `needle in hay` as contiguous-substring containment over characters (the
empty needle is contained in everything).  This is how the specification words
the matcher's third stage; the source's `Series.str.contains` actually applies
regex semantics, modelled below by `pyContains`. -/
def segIn (needle : List Char) : List Char → Bool
  | [] => pfxOf needle []
  | c :: t => pfxOf needle (c :: t) || segIn needle t

/-- Atom of the modelled regex subset: the `.` wildcard (any character except
a newline, as in Python `re`) or a literal character. -/
inductive RAtom where
  | dot : RAtom
  | lit : Char → RAtom
deriving DecidableEq, Repr

/-- Pattern token: an atom, alone or under a `*`, `+` or `?` quantifier. -/
inductive RTok where
  | once : RAtom → RTok
  | star : RAtom → RTok
  | plus : RAtom → RTok
  | opt : RAtom → RTok
deriving DecidableEq, Repr

/-- Regex syntax this model does not cover: escapes, groups, classes,
counted repetition, alternation and anchors. -/
def reUnsupported (c : Char) : Bool :=
  ['\\', '(', ')', '[', ']', '\x7b', '\x7d', '|', '^', '$'].contains c

/-- A character that the regex engine treats as a literal: neither unsupported
syntax nor one of `.`, `*`, `+`, `?`. -/
def reLiteral (c : Char) : Bool :=
  !(reUnsupported c || c == '.' || c == '*' || c == '+' || c == '?')

/-- Parse a pattern made of literals and `.`, each optionally quantified by
`*`, `+` or `?`; `none` for patterns using regex syntax outside this subset,
or malformed ones such as a leading quantifier (on which the program's
`re.compile` raises `re.error`). -/
def parseRE : List Char → Option (List RTok)
  | [] => some []
  | c :: t =>
    if reUnsupported c then none
    else if c = '*' ∨ c = '+' ∨ c = '?' then none
    else
      let a := if c = '.' then RAtom.dot else RAtom.lit c
      match t with
      | [] => some [RTok.once a]
      | q :: t2 =>
        if q = '*' then (parseRE t2).map (fun r => RTok.star a :: r)
        else if q = '+' then (parseRE t2).map (fun r => RTok.plus a :: r)
        else if q = '?' then (parseRE t2).map (fun r => RTok.opt a :: r)
        else (parseRE (q :: t2)).map (fun r => RTok.once a :: r)

/-- Does an atom match one character. -/
def matchAtom : RAtom → Char → Bool
  | .dot, c => c != '\n'
  | .lit a, c => a == c

/-- The suffixes of `s` reachable by consuming zero or more leading
characters that match the atom `a`: every possible remainder of a `a*`
repetition. -/
def suffixesWithin (a : RAtom) : List Char → List (List Char)
  | [] => [[]]
  | c :: cs => (c :: cs) :: (if matchAtom a c then suffixesWithin a cs else [])

/-- Can the pattern consume some prefix of `s` (the rest of `s` is ignored,
as at one fixed start position of `re.search`)?  A quantified atom tries
every legal repetition count via `suffixesWithin`. -/
def matchHere : List RTok → List Char → Bool
  | [], _ => true
  | RTok.once _ :: _, [] => false
  | RTok.once a :: ts, c :: cs => matchAtom a c && matchHere ts cs
  | RTok.star a :: ts, s => (suffixesWithin a s).any (fun s2 => matchHere ts s2)
  | RTok.plus _ :: _, [] => false
  | RTok.plus a :: ts, c :: cs =>
    matchAtom a c && (suffixesWithin a cs).any (fun s2 => matchHere ts s2)
  | RTok.opt _ :: ts, [] => matchHere ts []
  | RTok.opt a :: ts, c :: cs =>
    matchHere ts (c :: cs) || (matchAtom a c && matchHere ts cs)

/-- `re.search`: try to match at every start position. -/
def reSearch (p : List RTok) : List Char → Bool
  | [] => matchHere p []
  | c :: t => matchHere p (c :: t) || reSearch p t

/-- Model of `Series.str.contains(pat)` with the pandas default `regex=True`:
the pattern is a regular expression searched anywhere in the string.  Patterns
using regex syntax outside the modelled literal/`.`/`*`/`+`/`?` subset — where
the program applies full `re` semantics or raises `re.error` on malformed
input — are beyond the model and treated as matching nothing. -/
def pyContains (pat hay : List Char) : Bool :=
  match parseRE pat with
  | some p => reSearch p hay
  | none => false

/-- Split a character list on the `.` character, like `"a.b".split('.')`. -/
def splitDot : List Char → List (List Char)
  | [] => [[]]
  | c :: t =>
    if c = '.' then [] :: splitDot t
    else
      match splitDot t with
      | [] => [[c]]
      | h :: rest => (c :: h) :: rest

/-- Value of a digit string under left fold, `"007" ↦ 7`. -/
def digitsVal (l : List Char) : Nat :=
  l.foldl (fun a c => a * 10 + (c.toNat - 48)) 0

/-- Parse a non-empty all-digit character list as a natural number. -/
def parseDigits (l : List Char) : Option Nat :=
  if l ≠ [] ∧ l.all Char.isDigit then some (digitsVal l) else none

/-- Parse an optionally signed digit string as an integer
(accepting a leading `+` or `-`, as Python's numeric parsing does). -/
def parseSigned (l : List Char) : Option Int :=
  match l with
  | [] => none
  | c :: t =>
    if c = '-' then (parseDigits t).map (fun n => -(n : Int))
    else if c = '+' then (parseDigits t).map (fun n => (n : Int))
    else (parseDigits (c :: t)).map (fun n => (n : Int))

/-- Split at the first `e`/`E`, the exponent marker of a decimal float
numeral: the mantissa text, and the exponent text when a marker is present. -/
def splitE : List Char → List Char × Option (List Char)
  | [] => ([], none)
  | c :: t =>
    if c = 'e' ∨ c = 'E' then ([], some t)
    else
      let r := splitE t
      (c :: r.1, r.2)

/-- Exactly computed decimal shift with truncation toward zero on a
non-negative magnitude: the integer part of `m * 10 ^ s`. -/
def shift10 (m : Nat) (s : Int) : Int :=
  if 0 ≤ s then (m : Int) * (10 : Int) ^ s.toNat
  else ((m / 10 ^ (-s).toNat : Nat) : Int)

/-- Unsigned mantissa — digits with an optional `.` and fractional digits, at
least one digit overall — scaled by the exponent and truncated toward zero. -/
def parseMantissaAbs (l : List Char) (e : Int) : Option Int :=
  match splitDot l with
  | [a] =>
    if a ≠ [] ∧ a.all Char.isDigit then some (shift10 (digitsVal a) e) else none
  | [a, b] =>
    if (a ≠ [] ∨ b ≠ []) ∧ a.all Char.isDigit ∧ b.all Char.isDigit then
      some (shift10 (digitsVal (a ++ b)) (e - b.length))
    else none
  | _ => none

/-- Mantissa with an optional leading sign. -/
def parseMantissa (l : List Char) (e : Int) : Option Int :=
  match l with
  | [] => none
  | c :: t =>
    if c = '-' then (parseMantissaAbs t e).map (fun n => -n)
    else if c = '+' then parseMantissaAbs t e
    else parseMantissaAbs (c :: t) e

/-- Model of `pd.to_numeric(·, errors=coerce).astype(int)` on a cleaned cell:
an optionally signed decimal numeral with an optional fractional part and an
optional `e`/`E` exponent, its exact value truncated toward zero
(`"12.5" ↦ 12`, `"1e3" ↦ 1000`, `"2e-3" ↦ 0`); anything outside this grammar
fails (and is later coerced to `0` by `fillna`).  Not modelled: non-finite
spellings such as `"inf"` (the program's `astype(int)` raises on them, as it
does on values beyond the int64 range), and the corner where binary
double rounding of a decimal with more than about seventeen significant
digits crosses an integer boundary. -/
def parseNum (l : List Char) : Option Int :=
  match (splitE l).2 with
  | none => parseMantissa (splitE l).1 0
  | some ex =>
    match parseSigned ex with
    | none => none
    | some e => parseMantissa (splitE l).1 e

/-- Drop one trailing literal `".0"`, the `str.replace(r"\.0$", "")` step. -/
def dot0Strip (l : List Char) : List Char :=
  if pfxOf ['0', '.'] l.reverse then (l.reverse.drop 2).reverse else l

/-- Full cleanup of one raw `rooms_available` cell as a string: remove all
commas, strip whitespace, drop a trailing `".0"`, then parse; an unparsable
value becomes `0` (`to_numeric(errors=coerce).fillna(0)`). -/
def normRA (s : String) : Int :=
  (parseNum (dot0Strip (stripWs (s.data.filter (fun c => c != ','))))).getD 0

/-- Python `int(x)` as used on an already-normalized cell. -/
def cellInt : CVal → Int
  | .int n => n
  | .str s => (parseSigned s.data).getD 0
  | .na => 0

/-- The two fixed status labels, `new_val > 0` choosing between them. -/
def statusLabel (v : Int) : String :=
  if v > 0 then "còn" else "hết"

/-- `_safe_read_csv` after the encoding loop: ensure a `rooms_available`
column exists (defaulting to integer 0), normalize it per row, and derive a
`status` column when absent. -/
def safe_read_csv (df : DF) : DF :=
  let df1 := if hasCol df "rooms_available" then df else addColConst df "rooms_available" (.int 0)
  let df2 := mapCol df1 "rooms_available" (fun c => .int (normRA (asStr c)))
  if hasCol df2 "status" then df2
  else addColDerived df2 "status" (fun r => .str (statusLabel (cellInt (getCell r "rooms_available"))))

/-- What `_safe_read_csv` does to one row, given whether the raw table already
had the `rooms_available` and `status` columns: optionally append the default
availability, normalize every availability cell, optionally append the derived
status. -/
def loadRow (hasRA hasST : Bool) (r : Row) : Row :=
  let r1 := if hasRA then r else r ++ [("rooms_available", CVal.int 0)]
  let r2 := r1.map (fun kv =>
    if kv.1 = "rooms_available" then (kv.1, CVal.int (normRA (asStr kv.2))) else kv)
  if hasST then r2
  else r2 ++ [("status", CVal.str (statusLabel (cellInt (getCell r2 "rooms_available"))))]

/-- The two cell assignments of the mutation step: set the matched row's
availability to `v` and its status to the label derived from `v`. -/
def mutate (df : DF) (i : Nat) (v : Int) : DF :=
  setCellAt (setCellAt df i "rooms_available" (CVal.int v)) i "status"
    (CVal.str (statusLabel v))

/-- Trimmed string view of a row's cell at a candidate name column,
`df[c].astype(str).str.strip()`. -/
def rowColTrim (r : Row) (c : String) : String :=
  pyStrip (asStr (getCell r c))

/-- One row of the exact stage: trimmed, case-sensitive equality against the
trimmed target, unioned over the `name` and `hotel_name` columns. -/
def exactHit (hasN hasH : Bool) (t : String) (r : Row) : Bool :=
  (hasN && (rowColTrim r "name" == t)) || (hasH && (rowColTrim r "hotel_name" == t))

/-- One row of the case-insensitive stage: lower-cased equality. -/
def lowerHit (hasN hasH : Bool) (t : String) (r : Row) : Bool :=
  (hasN && (pyLower (rowColTrim r "name") == pyLower t)) ||
    (hasH && (pyLower (rowColTrim r "hotel_name") == pyLower t))

/-- One row of the third stage, `.str.contains(hotel_name.lower(), na=False)`:
regex search of the lower-cased target in the lower-cased trimmed cell. -/
def subHit (hasN hasH : Bool) (t : String) (r : Row) : Bool :=
  (hasN && pyContains (pyLower t).data (pyLower (rowColTrim r "name")).data) ||
    (hasH && pyContains (pyLower t).data (pyLower (rowColTrim r "hotel_name")).data)

/-- The third stage as the specification words it: literal substring
containment instead of regex search.  Kept beside `subHit` for comparison;
the two agree on targets made of regex-literal characters. -/
def subHitLiteral (hasN hasH : Bool) (t : String) (r : Row) : Bool :=
  (hasN && segIn (pyLower t).data (pyLower (rowColTrim r "name")).data) ||
    (hasH && segIn (pyLower t).data (pyLower (rowColTrim r "hotel_name")).data)

/-- Boolean mask of the exact stage over all rows. -/
def exactMask (df : DF) (t : String) : List Bool :=
  df.rows.map (exactHit (hasCol df "name") (hasCol df "hotel_name") t)

/-- Boolean mask of the case-insensitive stage over all rows. -/
def lowerMask (df : DF) (t : String) : List Bool :=
  df.rows.map (lowerHit (hasCol df "name") (hasCol df "hotel_name") t)

/-- Boolean mask of the third (regex-containment) stage over all rows. -/
def subMask (df : DF) (t : String) : List Bool :=
  df.rows.map (subHit (hasCol df "name") (hasCol df "hotel_name") t)

/-- Mask of the third stage under the specification's literal-substring
reading, for comparison with `subMask`. -/
def subMaskLiteral (df : DF) (t : String) : List Bool :=
  df.rows.map (subHitLiteral (hasCol df "name") (hasCol df "hotel_name") t)

/-- `_match_rows`: strip the target, then try exact, case-insensitive and
substring stages, each consulted only when the previous produced no match. -/
def match_rows (df : DF) (hotelName : String) : List Bool :=
  let t := pyStrip hotelName
  let ex := exactMask df t
  if ex.any id then ex
  else
    let lo := lowerMask df t
    if lo.any id then lo
    else subMask df t

/-- Index of the first `true` in a mask, `df[matches].index[0]`. -/
def firstTrueIdx : List Bool → Option Nat
  | [] => none
  | true :: _ => some 0
  | false :: bs => (firstTrueIdx bs).map (fun i => i + 1)

/-- One cell after a `to_csv` / `read_csv(dtype=str)` round trip: integers are
written in decimal and read back as that string; an empty string is written as
an empty field and read back as NaN. -/
def persistCell : CVal → CVal
  | .int n => .str (toString n)
  | .str s => if s = "" then .na else .str s
  | .na => .na

/-- A row after the CSV round trip. -/
def persistRow (r : Row) : Row :=
  r.map (fun kv => (kv.1, persistCell kv.2))

/-- The table as it parses back after `df.to_csv` wrote it. -/
def persistDF (df : DF) : DF :=
  ⟨df.header, df.rows.map persistRow⟩

/-- Error taxonomy of the entry points: `ValueError` on a non-positive
amount, `FileNotFoundError` on a missing path, `ValueError` when no row
matches. -/
inductive Err where
  | invalidArgument : Err
  | notFound : Err
  | noMatch : Err
deriving DecidableEq, Repr

deriving instance DecidableEq for Except

/-- `decrement_room_availability(hotels_csv_path, hotel_name, decrement)`:
the filesystem is the optional parsed content of the single path; the result
pairs the filesystem after the call with the returned value or the error. -/
def decrement_room_availability (file : Option DF) (hotelName : String) (decrement : Int) :
    Option DF × Except Err Int :=
  if decrement ≤ 0 then (file, .error .invalidArgument)
  else
    match file with
    | none => (none, .error .notFound)
    | some raw =>
      let df := safe_read_csv raw
      match firstTrueIdx (match_rows df hotelName) with
      | none => (some raw, .error .noMatch)
      | some i =>
        let current := cellInt (getCellAt df i "rooms_available")
        let newVal := max 0 (current - decrement)
        let df1 := setCellAt df i "rooms_available" (.int newVal)
        let df2 := setCellAt df1 i "status" (.str (statusLabel newVal))
        (some (persistDF df2), .ok newVal)

/-- `increment_room_availability(hotels_csv_path, hotel_name, increment)`:
same pipeline, `current + increment` with no upper clamp. -/
def increment_room_availability (file : Option DF) (hotelName : String) (increment : Int) :
    Option DF × Except Err Int :=
  if increment ≤ 0 then (file, .error .invalidArgument)
  else
    match file with
    | none => (none, .error .notFound)
    | some raw =>
      let df := safe_read_csv raw
      match firstTrueIdx (match_rows df hotelName) with
      | none => (some raw, .error .noMatch)
      | some i =>
        let current := cellInt (getCellAt df i "rooms_available")
        let newVal := current + increment
        let df1 := setCellAt df i "rooms_available" (.int newVal)
        let df2 := setCellAt df1 i "status" (.str (statusLabel newVal))
        (some (persistDF df2), .ok newVal)

/-- Every row's column list agrees with the header (what `read_csv` always
produces: each row has exactly the header's fields). -/
def wfB (df : DF) : Bool :=
  df.rows.all (fun r => r.map Prod.fst == df.header)

/-- Cells as they come from `read_csv(dtype=str)`: NaN or a non-empty string,
never an integer. -/
def fileCellB : CVal → Bool
  | .na => true
  | .str s => s != ""
  | .int _ => false

/-- Every cell of the table is a file cell. -/
def fileB (df : DF) : Bool :=
  df.rows.all (fun r => r.all (fun kv => fileCellB kv.2))

/-- The normalized availability integer of row `i`, as the mutators read it. -/
def raAt (df : DF) (i : Nat) : Int :=
  cellInt (getCellAt df i "rooms_available")

/-- A cell in loaded normal form: under the `rooms_available` key an integer,
elsewhere a file cell (NaN or non-empty string). -/
def lnfCellB (k : String) (v : CVal) : Bool :=
  if k = "rooms_available" then
    match v with
    | .int _ => true
    | _ => false
  else fileCellB v

/-- Loaded normal form of a whole table: what `_safe_read_csv` produces. -/
def lnfB (df : DF) : Bool :=
  df.rows.all (fun r => r.all (fun kv => lnfCellB kv.1 kv.2))

/-- The matcher-relevant view of a row: its trimmed `name` and `hotel_name`
strings. -/
def nameView (r : Row) : String × String :=
  (rowColTrim r "name", rowColTrim r "hotel_name")

/-- `os.path.dirname`: the part before the last `/`, with trailing slashes
stripped unless the result is all slashes; empty when there is no slash. -/
def dirname (p : String) : String :=
  let cs := p.data
  if cs.contains '/' then
    let head := ((cs.reverse.dropWhile (fun c => c != '/')).reverse)
    if head.all (fun c => c == '/') then String.mk head
    else String.mk ((head.reverse.dropWhile (fun c => c == '/')).reverse)
  else ""

/-- `os.path.dirname(path) or "."` as used by `_atomic_write_csv`. -/
def dirOrDot (p : String) : String :=
  if dirname p = "" then "." else dirname p

/-- One CSV field as `to_csv` writes it: quoted (with doubled quotes) when it
holds a comma, quote or newline. -/
def csvField (s : String) : String :=
  if s.data.contains ',' ∨ s.data.contains '"' ∨ s.data.contains '\n' then
    String.mk ('"' :: (s.data.foldr (fun c acc => if c = '"' then '"' :: '"' :: acc else c :: acc) ['"']))
  else s

/-- A cell as `to_csv` renders it: NaN as the empty field, integers in
decimal. -/
def cellOut : CVal → String
  | .na => ""
  | .str s => s
  | .int n => toString n

/-- Join fields with commas into one CSV line. -/
def joinComma : List String → String
  | [] => ""
  | [x] => x
  | x :: y :: t => x ++ "," ++ joinComma (y :: t)

/-- Serialize the whole table: header line then one line per row, the cells
taken in header order. -/
def serializeDF (df : DF) : List String :=
  joinComma (df.header.map csvField) ::
    df.rows.map (fun r => joinComma (df.header.map (fun c => csvField (cellOut (getCell r c)))))

/-- One filesystem step of `_atomic_write_csv`: create the temp file in a
directory, append one line to it, or atomically rename it over the target. -/
inductive WOp where
  | mkstemp : String → WOp
  | writeLine : String → WOp
  | replace : WOp
deriving DecidableEq, Repr

/-- Filesystem state seen while `_atomic_write_csv` runs: the target path's
content, the directory holding the temp file (if created), and the temp
file's content so far. -/
structure WState where
  target : Option (List String)
  tempDir : Option String
  temp : List String
deriving DecidableEq, Repr

/-- Effect of one writer step. -/
def runOp (s : WState) : WOp → WState
  | .mkstemp d => ⟨s.target, some d, []⟩
  | .writeLine l => ⟨s.target, s.tempDir, s.temp ++ [l]⟩
  | .replace => ⟨some s.temp, s.tempDir, s.temp⟩

/-- Run a sequence of writer steps. -/
def runOps (s : WState) (ops : List WOp) : WState :=
  ops.foldl runOp s

/-- `_atomic_write_csv(df, path)` as its sequence of filesystem steps:
`tempfile.mkstemp(dir=dirname(path) or ".")`, write the serialized table to
the temp file, then `os.replace(tmp, path)`. -/
def atomic_write_ops (df : DF) (path : String) : List WOp :=
  WOp.mkstemp (dirOrDot path) :: (serializeDF df).map WOp.writeLine ++ [WOp.replace]

/-- Initial writer state: the target holds the pre-mutation content, no temp
file exists. -/
def initW (old : Option (List String)) : WState :=
  ⟨old, none, []⟩

/-- Concrete table of the spec's scenario: one row,
`name="Sunrise Inn", rooms_available="10"`. -/
def sunriseT : DF :=
  ⟨["name", "rooms_available"],
    [[("name", .str "Sunrise Inn"), ("rooms_available", .str "10")]]⟩

/-- Concrete table with an exact-case row and a lower-case duplicate. -/
def grandT : DF :=
  ⟨["name", "rooms_available"],
    [[("name", .str "Grand Hotel"), ("rooms_available", .str "5")],
     [("name", .str "grand hotel"), ("rooms_available", .str "5")]]⟩

/-- Concrete table whose second row carries a stale, inconsistent `status`
value (`hết` while 5 rooms are available). -/
def staleT : DF :=
  ⟨["name", "rooms_available", "status"],
    [[("name", .str "A"), ("rooms_available", .str "5"), ("status", .str "còn")],
     [("name", .str "B"), ("rooms_available", .str "5"), ("status", .str "hết")]]⟩

/-- Concrete table whose first row has a missing (NaN) name and whose second
row is the first row with a non-missing name. -/
def nanT : DF :=
  ⟨["name", "rooms_available"],
    [[("name", .na), ("rooms_available", .str "5")],
     [("name", .str "A"), ("rooms_available", .str "2")]]⟩

/-- Concrete table whose `rooms_available` cell is the non-integer numeral
`12.5`. -/
def fracT : DF :=
  ⟨["rooms_available"], [[("rooms_available", .str "12.5")]]⟩

/-- Concrete one-row table whose name, `grand hotel`, is matched by the
regex-metacharacter target `grand.hotel` although it does not contain it as a
literal substring. -/
def dotT : DF :=
  ⟨["name", "rooms_available"],
    [[("name", .str "grand hotel"), ("rooms_available", .str "5")]]⟩

/-- Concrete table whose second row's name is all whitespace, so it trims to
the empty string and is caught by the exact stage when the target is empty. -/
def wsT : DF :=
  ⟨["name", "rooms_available"],
    [[("name", .str "A"), ("rooms_available", .str "5")],
     [("name", .str " "), ("rooms_available", .str "2")]]⟩

/-- Concrete two-row table with duplicate matching names, for the tie-break
policy. -/
def dupT : DF :=
  ⟨["name", "rooms_available"],
    [[("name", .str "Inn"), ("rooms_available", .str "4")],
     [("name", .str "Inn"), ("rooms_available", .str "9")]]⟩

/-- The empty table, used as a harmless default when destructuring results. -/
def dfEmpty : DF := ⟨[], []⟩

/-- Status consistency of one persisted row, reading its availability the way
the next load would: `status` is the `còn` token exactly when the availability
value is positive. -/
def rowStatusOkB (r : Row) : Bool :=
  ((getCell r "status") == CVal.str "còn") ==
    decide (0 < normRA (asStr (getCell r "rooms_available")))

/-- Status consistency of every row of a persisted table. -/
def statusConsistentB (df : DF) : Bool :=
  df.rows.all rowStatusOkB

/-- Full persisted invariant: availability non-negative and status consistent,
for every row. -/
def persistedInvB (df : DF) : Bool :=
  df.rows.all (fun r =>
    decide (0 ≤ normRA (asStr (getCell r "rooms_available"))) && rowStatusOkB r)

/-- Invariant of one loaded row: availability non-negative and status
consistent with it. -/
def invRowB (r : Row) : Bool :=
  decide (0 ≤ cellInt (getCell r "rooms_available")) &&
    (((getCell r "status") == CVal.str "còn") ==
      decide (0 < cellInt (getCell r "rooms_available")))

/-- Invariant of a loaded table: every row satisfies `invRowB`. -/
def loadedInvB (df : DF) : Bool :=
  df.rows.all invRowB

/-- The ten decimal digit characters. -/
def digitList : List Char := ['0', '1', '2', '3', '4', '5', '6', '7', '8', '9']

/-- Decimal digits of a natural number, most significant first. -/
def natDigits (n : Nat) : List Char :=
  if h : n < 10 then [Nat.digitChar n]
  else natDigits (n / 10) ++ [Nat.digitChar (n % 10)]
decreasing_by exact Nat.div_lt_self (by omega) (by omega)

theorem digitChar_mem (k : Nat) (h : k < 10) : Nat.digitChar k ∈ digitList := by
  interval_cases k <;> decide

theorem natDigits_subset (n : Nat) : ∀ c ∈ natDigits n, c ∈ digitList := by
  induction n using Nat.strong_induction_on with
  | _ n ih =>
    intro c hc
    by_cases h : n < 10
    · rw [natDigits, dif_pos h] at hc
      obtain rfl := List.mem_singleton.mp hc
      exact digitChar_mem n h
    · rw [natDigits, dif_neg h] at hc
      rcases List.mem_append.mp hc with h1 | h1
      · exact ih (n / 10) (Nat.div_lt_self (by omega) (by omega)) c h1
      · obtain rfl := List.mem_singleton.mp h1
        exact digitChar_mem (n % 10) (Nat.mod_lt n (by omega))

theorem natDigits_ne_nil (n : Nat) : natDigits n ≠ [] := by
  rw [natDigits]
  by_cases h : n < 10
  · simp [dif_pos h]
  · simp [dif_neg h]

theorem digitChar_toNat (k : Nat) (h : k < 10) : (Nat.digitChar k).toNat = 48 + k := by
  interval_cases k <;> decide

theorem digitsVal_append (l : List Char) (c : Char) :
    digitsVal (l ++ [c]) = digitsVal l * 10 + (c.toNat - 48) := by
  simp [digitsVal, List.foldl_append]

theorem digitsVal_natDigits (n : Nat) : digitsVal (natDigits n) = n := by
  induction n using Nat.strong_induction_on with
  | _ n ih =>
    by_cases h : n < 10
    · rw [natDigits, dif_pos h]
      simp [digitsVal, digitChar_toNat n h]
    · rw [natDigits, dif_neg h, digitsVal_append,
        ih (n / 10) (Nat.div_lt_self (by omega) (by omega)),
        digitChar_toNat (n % 10) (Nat.mod_lt n (by omega))]
      omega

theorem toDigitsCore10 (fuel : Nat) : ∀ n ds, n < fuel →
    Nat.toDigitsCore 10 fuel n ds = natDigits n ++ ds := by
  induction fuel with
  | zero => intro n ds h; omega
  | succ f ih =>
    intro n ds h
    by_cases h0 : n / 10 = 0
    · have hn : n < 10 := by omega
      simp only [Nat.toDigitsCore, h0, if_true]
      rw [natDigits, dif_pos hn, Nat.mod_eq_of_lt hn]
      rfl
    · simp only [Nat.toDigitsCore, h0, if_false]
      rw [ih (n / 10) _ (by omega)]
      conv_rhs => rw [natDigits, dif_neg (by omega : ¬ n < 10)]
      simp

theorem natRepr_data (n : Nat) : (Nat.repr n).data = natDigits n := by
  unfold Nat.repr Nat.toDigits
  rw [toDigitsCore10 (n + 1) n [] (Nat.lt_succ_self n)]
  simp [List.asString]

theorem toString_ofNat_data (m : Nat) : (toString (Int.ofNat m)).data = natDigits m := by
  show (Nat.repr m).data = natDigits m
  exact natRepr_data m

theorem toString_negSucc_data (m : Nat) :
    (toString (Int.negSucc m)).data = '-' :: natDigits (m + 1) := by
  show ("-" ++ Nat.repr (m + 1)).data = '-' :: natDigits (m + 1)
  rw [String.data_append, natRepr_data]
  rfl

theorem digit_char_props (c : Char) (h : c ∈ digitList) :
    (c != ',') = true ∧ pySpace c = false ∧ c ≠ '.' ∧ c.isDigit = true ∧
      c ≠ '-' ∧ c ≠ '+' ∧ c ≠ 'e' ∧ c ≠ 'E' := by
  fin_cases h <;>
    refine ⟨by decide, by decide, by decide, by decide, by decide, by decide,
      by decide, by decide⟩

theorem dropWhile_eq_self_of (p : Char → Bool) (l : List Char)
    (h : ∀ c ∈ l, p c = false) : l.dropWhile p = l := by
  cases l with
  | nil => rfl
  | cons a t => simp [List.dropWhile_cons, h a (List.mem_cons_self a t)]

theorem stripWs_eq_self_of (l : List Char) (h : ∀ c ∈ l, pySpace c = false) :
    stripWs l = l := by
  unfold stripWs
  rw [dropWhile_eq_self_of _ _ h, dropWhile_eq_self_of, List.reverse_reverse]
  intro c hc
  exact h c (List.mem_reverse.mp hc)

theorem dot0Strip_eq_self_of (l : List Char) (h : ∀ c ∈ l, c ≠ '.') :
    dot0Strip l = l := by
  have hp : pfxOf ['0', '.'] l.reverse = false := by
    cases hr : l.reverse with
    | nil => rfl
    | cons a t =>
      cases t with
      | nil => simp [pfxOf]
      | cons b t2 =>
        have hb : b ∈ l := by
          rw [← List.mem_reverse, hr]
          exact List.mem_cons_of_mem _ (List.mem_cons_self _ _)
        have hbne : ('.' == b) = false := beq_eq_false_iff_ne.mpr (Ne.symm (h b hb))
        simp [pfxOf, hbne]
  simp [dot0Strip, hp]

theorem splitDot_eq_of (l : List Char) (h : ∀ c ∈ l, c ≠ '.') : splitDot l = [l] := by
  induction l with
  | nil => rfl
  | cons a t ih =>
    have ha : ¬ a = '.' := h a (List.mem_cons_self a t)
    rw [splitDot, if_neg ha, ih (fun c hc => h c (List.mem_cons_of_mem _ hc))]

theorem parseDigits_natDigits (k : Nat) : parseDigits (natDigits k) = some k := by
  unfold parseDigits
  rw [if_pos, digitsVal_natDigits]
  refine ⟨natDigits_ne_nil k, ?_⟩
  rw [List.all_eq_true]
  intro c hc
  exact (digit_char_props c (natDigits_subset k c hc)).2.2.2.1

theorem parseSigned_natDigits (k : Nat) : parseSigned (natDigits k) = some (k : Int) := by
  cases hl : natDigits k with
  | nil => exact absurd hl (natDigits_ne_nil k)
  | cons a t =>
    have ha : a ∈ digitList := natDigits_subset k a (by rw [hl]; exact List.mem_cons_self a t)
    have hprops := digit_char_props a ha
    have h1 : parseSigned (a :: t) = (parseDigits (a :: t)).map (fun n => (n : Int)) := by
      simp only [parseSigned, if_neg hprops.2.2.2.2.1, if_neg hprops.2.2.2.2.2.1]
    rw [h1, ← hl, parseDigits_natDigits]
    rfl

theorem splitE_no_e (l : List Char) (h : ∀ c ∈ l, c ≠ 'e' ∧ c ≠ 'E') :
    splitE l = (l, none) := by
  induction l with
  | nil => rfl
  | cons a t ih =>
    have ha := h a (List.mem_cons_self a t)
    rw [splitE, if_neg (not_or.mpr ⟨ha.1, ha.2⟩)]
    simp [ih (fun c hc => h c (List.mem_cons_of_mem _ hc))]

theorem shift10_zero (m : Nat) : shift10 m 0 = (m : Int) := by
  simp [shift10]

theorem parseMantissaAbs_digits (l : List Char) (hne : l ≠ [])
    (hd : ∀ c ∈ l, c ∈ digitList) (e : Int) :
    parseMantissaAbs l e = some (shift10 (digitsVal l) e) := by
  unfold parseMantissaAbs
  rw [splitDot_eq_of l (fun c hc => (digit_char_props c (hd c hc)).2.2.1)]
  show (if l ≠ [] ∧ l.all Char.isDigit then some (shift10 (digitsVal l) e)
    else none) = some (shift10 (digitsVal l) e)
  rw [if_pos ⟨hne, by
    rw [List.all_eq_true]
    intro c hc
    exact (digit_char_props c (hd c hc)).2.2.2.1⟩]

theorem parseNum_digits (l : List Char) (hne : l ≠ [])
    (hd : ∀ c ∈ l, c ∈ digitList) :
    parseNum l = some ((digitsVal l : Nat) : Int) := by
  have hE : splitE l = (l, none) :=
    splitE_no_e l (fun c hc => ⟨(digit_char_props c (hd c hc)).2.2.2.2.2.2.1,
      (digit_char_props c (hd c hc)).2.2.2.2.2.2.2⟩)
  unfold parseNum
  rw [hE]
  show parseMantissa l 0 = some ((digitsVal l : Nat) : Int)
  cases l with
  | nil => exact absurd rfl hne
  | cons a t =>
    have hprops := digit_char_props a (hd a (List.mem_cons_self a t))
    simp only [parseMantissa, if_neg hprops.2.2.2.2.1, if_neg hprops.2.2.2.2.2.1]
    rw [parseMantissaAbs_digits (a :: t) (List.cons_ne_nil a t) hd 0, shift10_zero]

theorem parseNum_neg_digits (l : List Char) (hne : l ≠ [])
    (hd : ∀ c ∈ l, c ∈ digitList) :
    parseNum ('-' :: l) = some (-((digitsVal l : Nat) : Int)) := by
  have hE : splitE ('-' :: l) = ('-' :: l, none) := by
    refine splitE_no_e _ ?_
    intro c hc
    rcases List.mem_cons.mp hc with rfl | hc2
    · exact ⟨by decide, by decide⟩
    · exact ⟨(digit_char_props c (hd c hc2)).2.2.2.2.2.2.1,
        (digit_char_props c (hd c hc2)).2.2.2.2.2.2.2⟩
  unfold parseNum
  rw [hE]
  show parseMantissa ('-' :: l) 0 = some (-((digitsVal l : Nat) : Int))
  simp only [parseMantissa, if_pos rfl]
  rw [parseMantissaAbs_digits l hne hd 0, shift10_zero]
  rfl

theorem normRA_toString (n : Int) : normRA (toString n) = n := by
  cases n with
  | ofNat m =>
    have hd : ∀ c ∈ natDigits m, c ∈ digitList := natDigits_subset m
    unfold normRA
    rw [toString_ofNat_data,
      List.filter_eq_self.mpr (fun c hc => (digit_char_props c (hd c hc)).1),
      stripWs_eq_self_of _ (fun c hc => (digit_char_props c (hd c hc)).2.1),
      dot0Strip_eq_self_of _ (fun c hc => (digit_char_props c (hd c hc)).2.2.1)]
    rw [parseNum_digits (natDigits m) (natDigits_ne_nil m) hd, digitsVal_natDigits]
    rfl
  | negSucc m =>
    have hd : ∀ c ∈ natDigits (m + 1), c ∈ digitList := natDigits_subset (m + 1)
    have hall : ∀ c ∈ '-' :: natDigits (m + 1),
        (c != ',') = true ∧ pySpace c = false ∧ c ≠ '.' := by
      intro c hc
      rcases List.mem_cons.mp hc with rfl | hc2
      · exact ⟨by decide, by decide, by decide⟩
      · have := digit_char_props c (hd c hc2)
        exact ⟨this.1, this.2.1, this.2.2.1⟩
    unfold normRA
    rw [toString_negSucc_data,
      List.filter_eq_self.mpr (fun c hc => (hall c hc).1),
      stripWs_eq_self_of _ (fun c hc => (hall c hc).2.1),
      dot0Strip_eq_self_of _ (fun c hc => (hall c hc).2.2)]
    rw [parseNum_neg_digits (natDigits (m + 1)) (natDigits_ne_nil (m + 1)) hd,
      digitsVal_natDigits]
    show -((m + 1 : Nat) : Int) = Int.negSucc m
    rw [Int.negSucc_eq]
    push_cast
    ring

theorem setCell_cons (k : String) (w : CVal) (t : Row) (c : String) (v : CVal) :
    setCell ((k, w) :: t) c v =
      (if k = c then (k, v) else (k, w)) :: setCell t c v := by
  by_cases hk : k = c <;> simp [setCell, hk]

theorem lookup_setCell_ne (r : Row) (c cx : String) (v : CVal) (h : cx ≠ c) :
    List.lookup cx (setCell r c v) = List.lookup cx r := by
  induction r with
  | nil => rfl
  | cons kv t ih =>
    obtain ⟨k, w⟩ := kv
    rw [setCell_cons]
    by_cases hk : k = c
    · subst hk
      have hx : (cx == k) = false := beq_eq_false_iff_ne.mpr h
      rw [if_pos rfl, List.lookup_cons, List.lookup_cons, hx, ih]
    · rw [if_neg hk, List.lookup_cons, List.lookup_cons]
      cases hcx : cx == k
      · exact ih
      · rfl

theorem lookup_setCell_self (r : Row) (c : String) (v : CVal) :
    List.lookup c (setCell r c v) = (List.lookup c r).map (fun _ => v) := by
  induction r with
  | nil => rfl
  | cons kv t ih =>
    obtain ⟨k, w⟩ := kv
    rw [setCell_cons]
    by_cases hk : k = c
    · subst hk
      have hx : (k == k) = true := beq_iff_eq.mpr rfl
      rw [if_pos rfl, List.lookup_cons, List.lookup_cons, hx]
      rfl
    · have hx : (c == k) = false := beq_eq_false_iff_ne.mpr (fun e => hk e.symm)
      rw [if_neg hk, List.lookup_cons, List.lookup_cons, hx, ih]

theorem keys_setCell (r : Row) (c : String) (v : CVal) :
    (setCell r c v).map Prod.fst = r.map Prod.fst := by
  induction r with
  | nil => rfl
  | cons kv t ih =>
    obtain ⟨k, w⟩ := kv
    rw [setCell_cons]
    by_cases hk : k = c
    · subst hk
      rw [if_pos rfl, List.map_cons, List.map_cons, ih]
    · rw [if_neg hk, List.map_cons, List.map_cons, ih]

theorem getCell_setCell_ne (r : Row) (c cx : String) (v : CVal) (h : cx ≠ c) :
    getCell (setCell r c v) cx = getCell r cx := by
  unfold getCell
  rw [lookup_setCell_ne r c cx v h]

theorem getCell_setCell_present (r : Row) (c : String) (v : CVal)
    (h : (List.lookup c r).isSome = true) : getCell (setCell r c v) c = v := by
  unfold getCell
  rw [lookup_setCell_self]
  cases hx : List.lookup c r with
  | none => rw [hx] at h; cases h
  | some w => rfl

theorem persistRow_cons (k : String) (w : CVal) (t : Row) :
    persistRow ((k, w) :: t) = (k, persistCell w) :: persistRow t := rfl

theorem lookup_persistRow (r : Row) (c : String) :
    List.lookup c (persistRow r) = (List.lookup c r).map persistCell := by
  induction r with
  | nil => rfl
  | cons kv t ih =>
    obtain ⟨k, w⟩ := kv
    rw [persistRow_cons, List.lookup_cons, List.lookup_cons]
    cases hx : c == k
    · exact ih
    · rfl

theorem getCell_persistRow (r : Row) (c : String) :
    getCell (persistRow r) c = persistCell (getCell r c) := by
  unfold getCell
  rw [lookup_persistRow]
  cases hx : List.lookup c r with
  | none => rfl
  | some w => rfl

theorem modifyRow_get? (rs : List Row) (i j : Nat) (f : Row → Row) :
    (modifyRow rs i f).get? j = if j = i then (rs.get? i).map f else rs.get? j := by
  induction rs generalizing i j with
  | nil => cases i <;> cases j <;> simp [modifyRow]
  | cons r rest ih =>
    cases i with
    | zero => cases j <;> simp [modifyRow]
    | succ i2 =>
      cases j with
      | zero => simp [modifyRow]
      | succ j2 => simpa [modifyRow] using ih i2 j2

theorem modifyRow_length (rs : List Row) (i : Nat) (f : Row → Row) :
    (modifyRow rs i f).length = rs.length := by
  induction rs generalizing i with
  | nil => cases i <;> rfl
  | cons r rest ih =>
    cases i with
    | zero => rfl
    | succ i2 => simpa [modifyRow] using ih i2

theorem map_modifyRow {α : Type} (rs : List Row) (i : Nat) (f : Row → Row) (g : Row → α)
    (h : ∀ r, g (f r) = g r) : (modifyRow rs i f).map g = rs.map g := by
  induction rs generalizing i with
  | nil => cases i <;> rfl
  | cons r rest ih =>
    cases i with
    | zero => simp [modifyRow, h]
    | succ i2 => simpa [modifyRow] using ih i2

theorem all_modifyRow (rs : List Row) (i : Nat) (f : Row → Row) (p : Row → Bool)
    (h : rs.all p = true) (hf : ∀ r, p r = true → p (f r) = true) :
    (modifyRow rs i f).all p = true := by
  induction rs generalizing i with
  | nil => cases i <;> exact h
  | cons r rest ih =>
    rw [List.all_cons, Bool.and_eq_true] at h
    cases i with
    | zero => simp [modifyRow, hf r h.1, h.2]
    | succ i2 => simp [modifyRow, h.1, ih i2 h.2]

theorem rowAt_setCellAt_ne (df : DF) (i j : Nat) (c : String) (v : CVal) (h : j ≠ i) :
    rowAt (setCellAt df i c v) j = rowAt df j := by
  unfold rowAt setCellAt
  rw [modifyRow_get?]
  simp [h]

theorem rowAt_setCellAt_self (df : DF) (i : Nat) (c : String) (v : CVal) :
    rowAt (setCellAt df i c v) i = setCell (rowAt df i) c v := by
  unfold rowAt setCellAt
  rw [modifyRow_get?, if_pos rfl]
  cases hx : df.rows.get? i <;> simp [hx, setCell]

theorem rowAt_persistDF (df : DF) (i : Nat) :
    rowAt (persistDF df) i = persistRow (rowAt df i) := by
  unfold rowAt persistDF
  simp only [List.get?_map]
  cases hx : df.rows.get? i <;> simp [hx, persistRow]

theorem getCellAt_persistDF (df : DF) (i : Nat) (c : String) :
    getCellAt (persistDF df) i c = persistCell (getCellAt df i c) := by
  unfold getCellAt
  rw [rowAt_persistDF, getCell_persistRow]

theorem map_eq_self_of {α : Type} (l : List α) (g : α → α) (h : ∀ x ∈ l, g x = x) :
    l.map g = l := by
  induction l with
  | nil => rfl
  | cons a t ih =>
    rw [List.map_cons, h a (List.mem_cons_self a t),
      ih (fun x hx => h x (List.mem_cons_of_mem a hx))]

theorem firstTrueIdx_lt (bs : List Bool) (i : Nat) (h : firstTrueIdx bs = some i) :
    i < bs.length := by
  induction bs generalizing i with
  | nil => cases h
  | cons b t ih =>
    cases b with
    | true =>
      obtain rfl : i = 0 := by simpa [firstTrueIdx] using h.symm
      simp
    | false =>
      simp only [firstTrueIdx] at h
      cases hft : firstTrueIdx t with
      | none => rw [hft] at h; simp at h
      | some k =>
        rw [hft] at h
        obtain rfl : k + 1 = i := by simpa using h
        simpa using ih k hft

theorem firstTrueIdx_get (bs : List Bool) (i : Nat) (h : firstTrueIdx bs = some i) :
    bs.get? i = some true := by
  induction bs generalizing i with
  | nil => cases h
  | cons b t ih =>
    cases b with
    | true =>
      obtain rfl : i = 0 := by simpa [firstTrueIdx] using h.symm
      rfl
    | false =>
      simp only [firstTrueIdx] at h
      cases hft : firstTrueIdx t with
      | none => rw [hft] at h; simp at h
      | some k =>
        rw [hft] at h
        obtain rfl : k + 1 = i := by simpa using h
        simpa using ih k hft

theorem firstTrueIdx_first (bs : List Bool) (i : Nat) (h : firstTrueIdx bs = some i) :
    ∀ j < i, bs.get? j = some false := by
  induction bs generalizing i with
  | nil => cases h
  | cons b t ih =>
    cases b with
    | true =>
      obtain rfl : i = 0 := by simpa [firstTrueIdx] using h.symm
      intro j hj
      exact absurd hj (Nat.not_lt_zero j)
    | false =>
      simp only [firstTrueIdx] at h
      cases hft : firstTrueIdx t with
      | none => rw [hft] at h; simp at h
      | some k =>
        rw [hft] at h
        obtain rfl : k + 1 = i := by simpa using h
        intro j hj
        cases j with
        | zero => rfl
        | succ j2 => simpa using ih k hft j2 (by omega)

theorem DF_eq_of (a b : DF) (h1 : a.header = b.header) (h2 : a.rows = b.rows) : a = b := by
  cases a
  cases b
  cases h1
  cases h2
  rfl

theorem hasCol_eq (df : DF) (c : String) : hasCol df c = decide (c ∈ df.header) := by
  simp [hasCol, List.contains, List.elem_eq_mem]

theorem hasCol_append_self (h : List String) (rs : List Row) (c : String) :
    hasCol ⟨h ++ [c], rs⟩ c = true := by
  simp [hasCol_eq]

theorem hasCol_append_ne (h : List String) (rs1 rs2 : List Row) (c d : String) (hne : c ≠ d) :
    hasCol ⟨h ++ [d], rs1⟩ c = hasCol ⟨h, rs2⟩ c := by
  simp [hasCol_eq, List.mem_append, hne]

theorem updCol_cons (k : String) (w : CVal) (t : Row) (c : String) (f : CVal → CVal) :
    ((k, w) :: t).map (fun kv => if kv.1 = c then (kv.1, f kv.2) else kv) =
      (if k = c then (k, f w) else (k, w)) ::
        t.map (fun kv => if kv.1 = c then (kv.1, f kv.2) else kv) := by
  by_cases hk : k = c <;> simp [hk]

theorem lookup_updCol_ne (r : Row) (c cx : String) (f : CVal → CVal) (h : cx ≠ c) :
    List.lookup cx (r.map (fun kv => if kv.1 = c then (kv.1, f kv.2) else kv)) =
      List.lookup cx r := by
  induction r with
  | nil => rfl
  | cons kv t ih =>
    obtain ⟨k, w⟩ := kv
    rw [updCol_cons]
    by_cases hk : k = c
    · subst hk
      have hx : (cx == k) = false := beq_eq_false_iff_ne.mpr h
      rw [if_pos rfl, List.lookup_cons, List.lookup_cons, hx, ih]
    · rw [if_neg hk, List.lookup_cons, List.lookup_cons]
      cases hcx : cx == k
      · exact ih
      · rfl

theorem lookup_updCol_self (r : Row) (c : String) (f : CVal → CVal) :
    List.lookup c (r.map (fun kv => if kv.1 = c then (kv.1, f kv.2) else kv)) =
      (List.lookup c r).map f := by
  induction r with
  | nil => rfl
  | cons kv t ih =>
    obtain ⟨k, w⟩ := kv
    rw [updCol_cons]
    by_cases hk : k = c
    · subst hk
      have hx : (k == k) = true := beq_iff_eq.mpr rfl
      rw [if_pos rfl, List.lookup_cons, List.lookup_cons, hx]
      rfl
    · have hx : (c == k) = false := beq_eq_false_iff_ne.mpr (fun e => hk e.symm)
      rw [if_neg hk, List.lookup_cons, List.lookup_cons, hx, ih]

theorem keys_updCol (r : Row) (c : String) (f : CVal → CVal) :
    (r.map (fun kv => if kv.1 = c then (kv.1, f kv.2) else kv)).map Prod.fst =
      r.map Prod.fst := by
  induction r with
  | nil => rfl
  | cons kv t ih =>
    obtain ⟨k, w⟩ := kv
    rw [updCol_cons]
    by_cases hk : k = c
    · subst hk
      rw [if_pos rfl, List.map_cons, List.map_cons, ih]
    · rw [if_neg hk, List.map_cons, List.map_cons, ih]

theorem safe_read_eq (df : DF) :
    safe_read_csv df =
      ⟨(if hasCol df "rooms_available" then df.header
          else df.header ++ ["rooms_available"]) ++
          (if hasCol df "status" then [] else ["status"]),
        df.rows.map (loadRow (hasCol df "rooms_available") (hasCol df "status"))⟩ := by
  by_cases h1 : hasCol df "rooms_available"
  · have e2 : hasCol (mapCol df "rooms_available"
        (fun c => CVal.int (normRA (asStr c)))) "status" = hasCol df "status" := rfl
    by_cases h2 : hasCol df "status"
    · rw [safe_read_csv, if_pos h1, if_pos (e2.trans h2)]
      apply DF_eq_of
      · simp [mapCol, h1, h2]
      · simp only [mapCol, h1, h2, if_true]
        rfl
    · rw [safe_read_csv, if_pos h1, if_neg (by rw [e2]; exact h2)]
      apply DF_eq_of
      · simp [addColDerived, mapCol, h1, h2]
      · simp only [addColDerived, mapCol, h1, h2, if_true, if_false, List.map_map]
        rfl
  · have e2 : hasCol (mapCol (addColConst df "rooms_available" (CVal.int 0))
        "rooms_available" (fun c => CVal.int (normRA (asStr c)))) "status" =
        hasCol df "status" := by
      rw [hasCol_eq, hasCol_eq]
      simp [mapCol, addColConst, List.mem_append,
        show ¬ ("status" : String) = "rooms_available" from by decide]
    by_cases h2 : hasCol df "status"
    · rw [safe_read_csv, if_neg h1, if_pos (e2.trans h2)]
      apply DF_eq_of
      · simp [mapCol, addColConst, h1, h2]
      · simp only [mapCol, addColConst, h1, h2, if_true, if_false, List.map_map]
        rfl
    · rw [safe_read_csv, if_neg h1, if_neg (by rw [e2]; exact h2)]
      apply DF_eq_of
      · simp [addColDerived, mapCol, addColConst, h1, h2]
      · simp only [addColDerived, mapCol, addColConst, h1, h2, if_false, List.map_map]
        rfl

theorem safe_read_rows (df : DF) :
    (safe_read_csv df).rows =
      df.rows.map (loadRow (hasCol df "rooms_available") (hasCol df "status")) := by
  rw [safe_read_eq]

theorem safe_read_header (df : DF) :
    (safe_read_csv df).header =
      (if hasCol df "rooms_available" then df.header else df.header ++ ["rooms_available"]) ++
        (if hasCol df "status" then [] else ["status"]) := by
  rw [safe_read_eq]

theorem safe_read_length (df : DF) :
    (safe_read_csv df).rows.length = df.rows.length := by
  rw [safe_read_rows, List.length_map]

theorem safe_read_hasRA (df : DF) :
    hasCol (safe_read_csv df) "rooms_available" = true := by
  rw [hasCol_eq, safe_read_header]
  by_cases h1 : hasCol df "rooms_available" <;> by_cases h2 : hasCol df "status" <;>
    simp only [h1, h2, if_true, if_false] <;> simp [List.mem_append] <;>
    rw [hasCol_eq] at h1 <;> simpa using h1

theorem safe_read_hasStatus (df : DF) :
    hasCol (safe_read_csv df) "status" = true := by
  rw [hasCol_eq, safe_read_header]
  by_cases h1 : hasCol df "rooms_available" <;> by_cases h2 : hasCol df "status" <;>
    simp only [h1, h2, if_true, if_false] <;> simp [List.mem_append] <;>
    rw [hasCol_eq] at h2 <;> simpa using h2

theorem keys_loadRow (hasRA hasST : Bool) (r : Row) :
    (loadRow hasRA hasST r).map Prod.fst =
      ((if hasRA then r.map Prod.fst else r.map Prod.fst ++ ["rooms_available"]) ++
        (if hasST then [] else ["status"])) := by
  unfold loadRow
  cases hasRA <;> cases hasST <;>
    simp [keys_updCol, List.map_append] <;>
    intro a b _ <;> by_cases hab : a = "rooms_available" <;> simp [hab]

theorem wf_safe_read (df : DF) (hw : wfB df = true) : wfB (safe_read_csv df) = true := by
  rw [wfB, List.all_eq_true]
  intro r hr
  rw [safe_read_rows] at hr
  obtain ⟨r0, hr0, rfl⟩ := List.mem_map.mp hr
  have hk : r0.map Prod.fst = df.header := by
    have := List.all_eq_true.mp hw r0 hr0
    exact beq_iff_eq.mp (by simpa using this)
  rw [beq_iff_eq, keys_loadRow, hk, safe_read_header]

theorem lookup_present_of_wf (df : DF) (hw : wfB df = true) (i : Nat)
    (hi : i < df.rows.length) (c : String) (hc : hasCol df c = true) :
    (List.lookup c (rowAt df i)).isSome = true := by
  have hget : df.rows.get? i = some (df.rows.get ⟨i, hi⟩) := List.get?_eq_get hi
  have hmem : df.rows.get ⟨i, hi⟩ ∈ df.rows := List.get_mem df.rows i hi
  have hkeys : (df.rows.get ⟨i, hi⟩).map Prod.fst = df.header :=
    beq_iff_eq.mp (by simpa using List.all_eq_true.mp hw _ hmem)
  have hcmem : c ∈ df.header := by
    rw [hasCol_eq] at hc
    exact of_decide_eq_true hc
  rw [← hkeys] at hcmem
  obtain ⟨p, hp, hp1⟩ := List.mem_map.mp hcmem
  rw [List.lookup_isSome_iff]
  unfold rowAt
  rw [hget]
  exact ⟨p, hp, beq_iff_eq.mpr hp1.symm⟩

theorem statusLabel_ne_empty (v : Int) : (statusLabel v != "") = true := by
  unfold statusLabel
  by_cases h : v > 0 <;> simp [h]

theorem all_setCell (r : Row) (c : String) (v : CVal) (p : String × CVal → Bool)
    (h : r.all p = true) (hv : p (c, v) = true) : (setCell r c v).all p = true := by
  rw [List.all_eq_true] at h ⊢
  intro x hx
  obtain ⟨kv, hkv, rfl⟩ := List.mem_map.mp hx
  by_cases hk : kv.1 = c
  · rw [if_pos hk, hk]
    exact hv
  · rw [if_neg hk]
    exact h kv hkv

theorem lnf_safe_read (df : DF) (hf : fileB df = true) : lnfB (safe_read_csv df) = true := by
  rw [lnfB, List.all_eq_true]
  intro r hr
  rw [safe_read_rows] at hr
  obtain ⟨r0, hr0, rfl⟩ := List.mem_map.mp hr
  have hc : ∀ kv ∈ r0, fileCellB kv.2 = true := fun kv hkv =>
    List.all_eq_true.mp (List.all_eq_true.mp hf r0 hr0) kv hkv
  rw [List.all_eq_true]
  intro kv hkv
  unfold loadRow at hkv
  have hstage2 : ∀ x ∈ (if hasCol df "rooms_available" then r0
      else r0 ++ [("rooms_available", CVal.int 0)]).map (fun kv =>
        if kv.1 = "rooms_available" then (kv.1, CVal.int (normRA (asStr kv.2))) else kv),
      lnfCellB x.1 x.2 = true := by
    intro x hx
    obtain ⟨kv0, hkv0, rfl⟩ := List.mem_map.mp hx
    by_cases hk : kv0.1 = "rooms_available"
    · rw [if_pos hk]
      simp [lnfCellB, hk]
    · rw [if_neg hk]
      have hkv0r : kv0 ∈ r0 := by
        by_cases hra : hasCol df "rooms_available"
        · rw [if_pos hra] at hkv0
          exact hkv0
        · rw [if_neg hra] at hkv0
          rcases List.mem_append.mp hkv0 with h1 | h1
          · exact h1
          · obtain rfl := List.mem_singleton.mp h1
            exact absurd rfl hk
      simp only [lnfCellB, if_neg hk]
      exact hc kv0 hkv0r
  by_cases hst : hasCol df "status"
  · rw [if_pos hst] at hkv
    exact hstage2 kv hkv
  · rw [if_neg hst] at hkv
    rcases List.mem_append.mp hkv with h1 | h1
    · exact hstage2 kv h1
    · obtain rfl := List.mem_singleton.mp h1
      simp only [lnfCellB, if_neg (show ¬ ("status" : String) = "rooms_available" from by decide)]
      exact statusLabel_ne_empty _

theorem lnf_mutate (df : DF) (i : Nat) (v : Int) (hl : lnfB df = true) :
    lnfB (setCellAt (setCellAt df i "rooms_available" (CVal.int v)) i "status"
      (CVal.str (statusLabel v))) = true := by
  unfold lnfB setCellAt
  apply all_modifyRow
  · apply all_modifyRow
    · exact hl
    · intro r hp
      apply all_setCell _ _ _ _ hp
      simp [lnfCellB]
  · intro r hp
    apply all_setCell _ _ _ _ hp
    simp only [lnfCellB, if_neg (show ¬ ("status" : String) = "rooms_available" from by decide)]
    exact statusLabel_ne_empty v

theorem persistCell_file (v : CVal) (h : fileCellB v = true) : persistCell v = v := by
  cases v with
  | na => rfl
  | int n => simp [fileCellB] at h
  | str s =>
    have hs : ¬ s = "" := by simpa [fileCellB] using h
    simp [persistCell, hs]

theorem load_persist_id (df : DF) (hl : lnfB df = true)
    (hra : hasCol df "rooms_available" = true) (hst : hasCol df "status" = true) :
    safe_read_csv (persistDF df) = df := by
  have hra2 : hasCol (persistDF df) "rooms_available" = true := hra
  have hst2 : hasCol (persistDF df) "status" = true := hst
  rw [safe_read_eq]
  apply DF_eq_of
  · simp only [hra2, hst2, if_true]
    simp [persistDF]
  · simp only [hra2, hst2, if_true]
    show (df.rows.map persistRow).map (loadRow true true) = df.rows
    rw [List.map_map]
    apply map_eq_self_of
    intro r hr
    have hcells : ∀ kv ∈ r, lnfCellB kv.1 kv.2 = true := fun kv hkv =>
      List.all_eq_true.mp (List.all_eq_true.mp hl r hr) kv hkv
    show loadRow true true (persistRow r) = r
    unfold loadRow
    show (persistRow r).map (fun kv =>
      if kv.1 = "rooms_available" then (kv.1, CVal.int (normRA (asStr kv.2))) else kv) = r
    unfold persistRow
    rw [List.map_map]
    apply map_eq_self_of
    intro kv hkv
    obtain ⟨k, w⟩ := kv
    have hcell := hcells (k, w) hkv
    simp only [Function.comp_apply]
    by_cases hk : k = "rooms_available"
    · subst hk
      cases w with
      | na => simp [lnfCellB] at hcell
      | str s => simp [lnfCellB] at hcell
      | int n => simp [persistCell, asStr, normRA_toString]
    · have hfile : fileCellB w = true := by simpa [lnfCellB, if_neg hk] using hcell
      simp [if_neg hk, persistCell_file w hfile]

theorem wf_setCellAt (df : DF) (i : Nat) (c : String) (v : CVal) (hw : wfB df = true) :
    wfB (setCellAt df i c v) = true := by
  rw [wfB]
  show (modifyRow df.rows i (fun r => setCell r c v)).all
    (fun r => r.map Prod.fst == df.header) = true
  apply all_modifyRow _ _ _ _ hw
  intro r hp
  rw [beq_iff_eq, keys_setCell]
  exact beq_iff_eq.mp hp

theorem match_rows_length (df : DF) (t : String) :
    (match_rows df t).length = df.rows.length := by
  unfold match_rows
  dsimp only
  split
  · simp [exactMask]
  · split
    · simp [lowerMask]
    · simp [subMask]

theorem exactMask_factor (df : DF) (t : String) :
    exactMask df t = (df.rows.map nameView).map (fun p =>
      (hasCol df "name" && (p.1 == t)) || (hasCol df "hotel_name" && (p.2 == t))) := by
  rw [exactMask, List.map_map]
  rfl

theorem lowerMask_factor (df : DF) (t : String) :
    lowerMask df t = (df.rows.map nameView).map (fun p =>
      (hasCol df "name" && (pyLower p.1 == pyLower t)) ||
        (hasCol df "hotel_name" && (pyLower p.2 == pyLower t))) := by
  rw [lowerMask, List.map_map]
  rfl

theorem subMask_factor (df : DF) (t : String) :
    subMask df t = (df.rows.map nameView).map (fun p =>
      (hasCol df "name" && pyContains (pyLower t).data (pyLower p.1).data) ||
        (hasCol df "hotel_name" && pyContains (pyLower t).data (pyLower p.2).data)) := by
  rw [subMask, List.map_map]
  rfl

theorem match_rows_eq_of_nameView (df1 df2 : DF) (t : String)
    (hhdr : df1.header = df2.header)
    (h : df1.rows.map nameView = df2.rows.map nameView) :
    match_rows df1 t = match_rows df2 t := by
  have hN : hasCol df1 "name" = hasCol df2 "name" := by
    unfold hasCol
    rw [hhdr]
  have hH : hasCol df1 "hotel_name" = hasCol df2 "hotel_name" := by
    unfold hasCol
    rw [hhdr]
  have e1 : exactMask df1 (pyStrip t) = exactMask df2 (pyStrip t) := by
    rw [exactMask_factor, exactMask_factor, hN, hH, h]
  have e2 : lowerMask df1 (pyStrip t) = lowerMask df2 (pyStrip t) := by
    rw [lowerMask_factor, lowerMask_factor, hN, hH, h]
  have e3 : subMask df1 (pyStrip t) = subMask df2 (pyStrip t) := by
    rw [subMask_factor, subMask_factor, hN, hH, h]
  unfold match_rows
  dsimp only
  rw [e1, e2, e3]

theorem nameView_setCell (r : Row) (c : String) (v : CVal)
    (h1 : c ≠ "name") (h2 : c ≠ "hotel_name") : nameView (setCell r c v) = nameView r := by
  unfold nameView rowColTrim getCell
  rw [lookup_setCell_ne r c "name" v (Ne.symm h1),
    lookup_setCell_ne r c "hotel_name" v (Ne.symm h2)]

theorem match_rows_setCellAt (df : DF) (i : Nat) (c : String) (v : CVal) (t : String)
    (h1 : c ≠ "name") (h2 : c ≠ "hotel_name") :
    match_rows (setCellAt df i c v) t = match_rows df t := by
  apply match_rows_eq_of_nameView (setCellAt df i c v) df t rfl
  show (modifyRow df.rows i (fun r => setCell r c v)).map nameView = df.rows.map nameView
  apply map_modifyRow
  intro r
  exact nameView_setCell r c v h1 h2

theorem decrement_eq (raw : DF) (nm : String) (a : Int) (i : Nat)
    (ha : 0 < a) (hi : firstTrueIdx (match_rows (safe_read_csv raw) nm) = some i) :
    decrement_room_availability (some raw) nm a =
      (some (persistDF (setCellAt (setCellAt (safe_read_csv raw) i "rooms_available"
          (CVal.int (max 0 (raAt (safe_read_csv raw) i - a)))) i "status"
          (CVal.str (statusLabel (max 0 (raAt (safe_read_csv raw) i - a)))))),
       Except.ok (max 0 (raAt (safe_read_csv raw) i - a))) := by
  unfold decrement_room_availability
  rw [if_neg (by omega : ¬ a ≤ 0)]
  dsimp only
  rw [hi]
  rfl

theorem increment_eq (raw : DF) (nm : String) (a : Int) (i : Nat)
    (ha : 0 < a) (hi : firstTrueIdx (match_rows (safe_read_csv raw) nm) = some i) :
    increment_room_availability (some raw) nm a =
      (some (persistDF (setCellAt (setCellAt (safe_read_csv raw) i "rooms_available"
          (CVal.int (raAt (safe_read_csv raw) i + a))) i "status"
          (CVal.str (statusLabel (raAt (safe_read_csv raw) i + a))))),
       Except.ok (raAt (safe_read_csv raw) i + a)) := by
  unfold increment_room_availability
  rw [if_neg (by omega : ¬ a ≤ 0)]
  dsimp only
  rw [hi]
  rfl

theorem raAt_mutate (df : DF) (i : Nat) (v : Int) (s : String)
    (hpres : (List.lookup "rooms_available" (rowAt df i)).isSome = true) :
    raAt (setCellAt (setCellAt df i "rooms_available" (CVal.int v)) i "status"
      (CVal.str s)) i = v := by
  unfold raAt getCellAt
  rw [rowAt_setCellAt_self,
    getCell_setCell_ne _ _ _ _ (by decide : ("rooms_available" : String) ≠ "status"),
    rowAt_setCellAt_self, getCell_setCell_present _ _ _ hpres]
  rfl

theorem getCellAt_mutate_ra (df : DF) (i : Nat) (v : Int) (s : String)
    (hpres : (List.lookup "rooms_available" (rowAt df i)).isSome = true) :
    getCellAt (setCellAt (setCellAt df i "rooms_available" (CVal.int v)) i "status"
      (CVal.str s)) i "rooms_available" = CVal.int v := by
  unfold getCellAt
  rw [rowAt_setCellAt_self,
    getCell_setCell_ne _ _ _ _ (by decide : ("rooms_available" : String) ≠ "status"),
    rowAt_setCellAt_self, getCell_setCell_present _ _ _ hpres]

theorem lookup_isSome_setCell (r : Row) (c cx : String) (v : CVal) :
    (List.lookup cx (setCell r c v)).isSome = (List.lookup cx r).isSome := by
  by_cases h : cx = c
  · subst h
    rw [lookup_setCell_self]
    cases List.lookup cx r <;> rfl
  · rw [lookup_setCell_ne _ _ _ _ h]

theorem get?_persist_mutate_ne (df : DF) (i : Nat) (x y : CVal) (j : Nat) (h : j ≠ i) :
    (persistDF (setCellAt (setCellAt df i "rooms_available" x) i "status" y)).rows.get? j =
      (persistDF df).rows.get? j := by
  show ((modifyRow (modifyRow df.rows i (fun r => setCell r "rooms_available" x)) i
    (fun r => setCell r "status" y)).map persistRow).get? j = (df.rows.map persistRow).get? j
  rw [List.get?_map, List.get?_map, modifyRow_get?, if_neg h, modifyRow_get?, if_neg h]

theorem all_iff_get? (p : Row → Bool) (rs : List Row) :
    rs.all p = true ↔ ∀ j r, rs.get? j = some r → p r = true := by
  rw [List.all_eq_true]
  constructor
  · intro h j r hj
    exact h r (List.get?_mem hj)
  · intro h r hr
    obtain ⟨j, hj⟩ := List.mem_iff_get?.mp hr
    exact h j r hj

theorem segIn_nil_left (l : List Char) : segIn [] l = true := by
  cases l <;> simp [segIn, pfxOf]

theorem pyContains_nil (hay : List Char) : pyContains [] hay = true := by
  cases hay <;> simp [pyContains, parseRE, reSearch, matchHere]

theorem parseRE_literal (pat : List Char) (h : ∀ c ∈ pat, reLiteral c = true) :
    parseRE pat = some (pat.map (fun c => RTok.once (RAtom.lit c))) := by
  induction pat with
  | nil => rfl
  | cons c t ih =>
    have hc := h c (List.mem_cons_self c t)
    rw [reLiteral] at hc
    simp only [Bool.not_eq_true', Bool.or_eq_false_iff, beq_eq_false_iff_ne] at hc
    obtain ⟨⟨⟨⟨hu, hdot⟩, hstar⟩, hplus⟩, hopt⟩ := hc
    rw [parseRE, if_neg (by simp [hu]), if_neg (by tauto)]
    simp only [if_neg hdot]
    cases t with
    | nil => rfl
    | cons q t2 =>
      have hq := h q (List.mem_cons_of_mem _ (List.mem_cons_self q t2))
      rw [reLiteral] at hq
      simp only [Bool.not_eq_true', Bool.or_eq_false_iff, beq_eq_false_iff_ne] at hq
      obtain ⟨⟨⟨⟨_, _⟩, hqstar⟩, hqplus⟩, hqopt⟩ := hq
      show (if q = '*' then Option.map (fun r => RTok.star (RAtom.lit c) :: r) (parseRE t2)
        else if q = '+' then Option.map (fun r => RTok.plus (RAtom.lit c) :: r) (parseRE t2)
        else if q = '?' then Option.map (fun r => RTok.opt (RAtom.lit c) :: r) (parseRE t2)
        else Option.map (fun r => RTok.once (RAtom.lit c) :: r) (parseRE (q :: t2))) =
        some (List.map (fun x => RTok.once (RAtom.lit x)) (c :: q :: t2))
      rw [if_neg hqstar, if_neg hqplus, if_neg hqopt,
        ih (fun x hx => h x (List.mem_cons_of_mem _ hx))]
      rfl

theorem matchHere_lits (pat : List Char) (s : List Char) :
    matchHere (pat.map (fun c => RTok.once (RAtom.lit c))) s = pfxOf pat s := by
  induction pat generalizing s with
  | nil => cases s <;> rfl
  | cons c t ih =>
    cases s with
    | nil => rfl
    | cons d ds =>
      show ((c == d) && matchHere (t.map (fun x => RTok.once (RAtom.lit x))) ds) =
        ((c == d) && pfxOf t ds)
      rw [ih ds]

theorem reSearch_lits (pat : List Char) (hay : List Char) :
    reSearch (pat.map (fun c => RTok.once (RAtom.lit c))) hay = segIn pat hay := by
  induction hay with
  | nil => exact matchHere_lits pat []
  | cons c t ih =>
    show (matchHere (pat.map (fun x => RTok.once (RAtom.lit x))) (c :: t) ||
        reSearch (pat.map (fun x => RTok.once (RAtom.lit x))) t) =
      (pfxOf pat (c :: t) || segIn pat t)
    rw [matchHere_lits, ih]

theorem pyContains_eq_segIn (pat hay : List Char) (h : pat.all reLiteral = true) :
    pyContains pat hay = segIn pat hay := by
  unfold pyContains
  rw [parseRE_literal pat (List.all_eq_true.mp h)]
  exact reSearch_lits pat hay

theorem pyLower_eq_empty (s : String) (h : pyLower s = "") : s = "" := by
  unfold pyLower at h
  have hdata : s.data.map pyLowerChar = [] := congrArg String.data h
  have hnil : s.data = [] := List.map_eq_nil_iff.mp hdata
  cases s with
  | mk data =>
    show String.mk data = String.mk []
    rw [show data = [] from hnil]

theorem getCell_loadRow_ra_present (hasST : Bool) (r : Row)
    (hp : (List.lookup "rooms_available" r).isSome = true) :
    getCell (loadRow true hasST r) "rooms_available" =
      CVal.int (normRA (asStr (getCell r "rooms_available"))) := by
  obtain ⟨w, hw⟩ := Option.isSome_iff_exists.mp hp
  have hstage : List.lookup "rooms_available" (r.map (fun kv =>
      if kv.1 = "rooms_available" then (kv.1, CVal.int (normRA (asStr kv.2))) else kv)) =
      some (CVal.int (normRA (asStr w))) := by
    rw [lookup_updCol_self r "rooms_available" (fun x => CVal.int (normRA (asStr x))), hw]
    rfl
  cases hasST with
  | true =>
    simp only [loadRow, getCell, eq_self_iff_true, if_true, Bool.false_eq_true, if_false]
    rw [hstage, hw]
    rfl
  | false =>
    simp only [loadRow, getCell, eq_self_iff_true, if_true, Bool.false_eq_true, if_false]
    rw [List.lookup_append, hstage, hw]
    rfl

theorem getCell_loadRow_ra_absent (hasST : Bool) (r : Row)
    (hp : List.lookup "rooms_available" r = none) :
    getCell (loadRow false hasST r) "rooms_available" = CVal.int 0 := by
  have hstage : List.lookup "rooms_available" ((r ++ [("rooms_available", CVal.int 0)]).map
      (fun kv => if kv.1 = "rooms_available" then (kv.1, CVal.int (normRA (asStr kv.2))) else kv)) =
      some (CVal.int 0) := by
    rw [lookup_updCol_self (r ++ [("rooms_available", CVal.int 0)]) "rooms_available"
      (fun x => CVal.int (normRA (asStr x))), List.lookup_append, hp]
    show some (CVal.int (normRA (asStr (CVal.int 0)))) = some (CVal.int 0)
    rw [show asStr (CVal.int 0) = toString (0 : Int) from rfl, normRA_toString]
  cases hasST with
  | true =>
    simp only [loadRow, getCell, eq_self_iff_true, if_true, Bool.false_eq_true, if_false]
    rw [hstage]
    rfl
  | false =>
    simp only [loadRow, getCell, eq_self_iff_true, if_true, Bool.false_eq_true, if_false]
    rw [List.lookup_append, hstage]
    rfl

theorem statusLabel_beq (v : Int) :
    ((CVal.str (statusLabel v)) == CVal.str "còn") = decide (0 < v) := by
  by_cases h : v > 0
  · simp [statusLabel, h]
  · have hv : ¬ (0 : Int) < v := h
    simp only [statusLabel, if_neg h, decide_eq_false hv]
    decide

/-- C1: for every table, matched row with current availability `c`, and
positive amount `a`, `decrement_room_availability` sets the row's new
availability to `max 0 (c - a)` and returns it, while
`increment_room_availability` sets it to `c + a` (no upper clamp) and
returns it. -/
theorem C1_delta_formula (raw : DF) (nm : String) (a : Int) (i : Nat)
    (hw : wfB raw = true) (ha : 0 < a)
    (hi : firstTrueIdx (match_rows (safe_read_csv raw) nm) = some i) :
    ∃ outD outI : DF,
      decrement_room_availability (some raw) nm a =
        (some outD, Except.ok (max 0 (raAt (safe_read_csv raw) i - a))) ∧
      getCellAt outD i "rooms_available" =
        CVal.str (toString (max 0 (raAt (safe_read_csv raw) i - a))) ∧
      increment_room_availability (some raw) nm a =
        (some outI, Except.ok (raAt (safe_read_csv raw) i + a)) ∧
      getCellAt outI i "rooms_available" =
        CVal.str (toString (raAt (safe_read_csv raw) i + a)) := by
  have hlen : i < (safe_read_csv raw).rows.length := by
    have h1 := firstTrueIdx_lt _ _ hi
    rwa [match_rows_length] at h1
  have hpres : (List.lookup "rooms_available" (rowAt (safe_read_csv raw) i)).isSome = true :=
    lookup_present_of_wf _ (wf_safe_read raw hw) i hlen _ (safe_read_hasRA raw)
  refine ⟨_, _, decrement_eq raw nm a i ha hi, ?_, increment_eq raw nm a i ha hi, ?_⟩
  · rw [getCellAt_persistDF, getCellAt_mutate_ra _ _ _ _ hpres]
    rfl
  · rw [getCellAt_persistDF, getCellAt_mutate_ra _ _ _ _ hpres]
    rfl

/-- Witness for C1 at the spec's concrete scenario: the one-row
`Sunrise Inn` table with 10 rooms, decremented by 3 (returning 7) and
incremented by 3 (returning 13); additionally the chained second decrement by
10 on the written-back file clamps to 0. -/
theorem C1_delta_formula_witness :
    wfB sunriseT = true ∧ (0 : Int) < 3 ∧
    firstTrueIdx (match_rows (safe_read_csv sunriseT) "sunrise inn") = some 0 ∧
    (∃ outD outI : DF,
      decrement_room_availability (some sunriseT) "sunrise inn" 3 =
        (some outD, Except.ok (max 0 (raAt (safe_read_csv sunriseT) 0 - 3))) ∧
      getCellAt outD 0 "rooms_available" =
        CVal.str (toString (max 0 (raAt (safe_read_csv sunriseT) 0 - 3))) ∧
      increment_room_availability (some sunriseT) "sunrise inn" 3 =
        (some outI, Except.ok (raAt (safe_read_csv sunriseT) 0 + 3)) ∧
      getCellAt outI 0 "rooms_available" =
        CVal.str (toString (raAt (safe_read_csv sunriseT) 0 + 3))) ∧
    raAt (safe_read_csv sunriseT) 0 = 10 ∧
    (decrement_room_availability (some sunriseT) "sunrise inn" 3).2 = Except.ok 7 ∧
    (decrement_room_availability
        ((decrement_room_availability (some sunriseT) "sunrise inn" 3).1)
        "Sunrise Inn" 10).2 = Except.ok 0 :=
  ⟨by decide, by decide, by decide,
    C1_delta_formula sunriseT "sunrise inn" 3 0 (by decide) (by decide) (by decide),
    by decide, by decide, by decide⟩

/-- C8: a non-positive amount fails with the invalid-argument error and the
filesystem is unchanged; a missing path fails with the not-found error and no
file is created. -/
theorem C8_error_paths (file : Option DF) (nm : String) (a : Int) :
    (a ≤ 0 →
      decrement_room_availability file nm a = (file, Except.error Err.invalidArgument) ∧
      increment_room_availability file nm a = (file, Except.error Err.invalidArgument)) ∧
    (0 < a →
      decrement_room_availability none nm a = (none, Except.error Err.notFound) ∧
      increment_room_availability none nm a = (none, Except.error Err.notFound)) := by
  constructor
  · intro h
    constructor
    · unfold decrement_room_availability
      rw [if_pos h]
    · unfold increment_room_availability
      rw [if_pos h]
  · intro h
    constructor
    · unfold decrement_room_availability
      rw [if_neg (by omega : ¬ a ≤ 0)]
    · unfold increment_room_availability
      rw [if_neg (by omega : ¬ a ≤ 0)]

/-- Witness for C8: amount 0 on an existing file, and amount 1 on a missing
path. -/
theorem C8_error_paths_witness :
    ((0 : Int) ≤ 0 →
      decrement_room_availability (some sunriseT) "Sunrise Inn" 0 =
        (some sunriseT, Except.error Err.invalidArgument) ∧
      increment_room_availability (some sunriseT) "Sunrise Inn" 0 =
        (some sunriseT, Except.error Err.invalidArgument)) ∧
    ((0 : Int) < 0 →
      decrement_room_availability none "Sunrise Inn" 0 = (none, Except.error Err.notFound) ∧
      increment_room_availability none "Sunrise Inn" 0 = (none, Except.error Err.notFound)) ∧
    (0 : Int) < 1 ∧
    decrement_room_availability none "Sunrise Inn" 1 = (none, Except.error Err.notFound) :=
  ⟨(C8_error_paths (some sunriseT) "Sunrise Inn" 0).1,
    (C8_error_paths none "Sunrise Inn" 0).2,
    by decide,
    ((C8_error_paths none "Sunrise Inn" 1).2 (by decide)).1⟩

theorem runOps_cons (s : WState) (op : WOp) (t : List WOp) :
    runOps s (op :: t) = runOps (runOp s op) t := rfl

theorem runOps_append (s : WState) (a b : List WOp) :
    runOps s (a ++ b) = runOps (runOps s a) b :=
  List.foldl_append runOp s a b

theorem runOps_writeLines (s : WState) (ls : List String) :
    runOps s (ls.map WOp.writeLine) = ⟨s.target, s.tempDir, s.temp ++ ls⟩ := by
  induction ls generalizing s with
  | nil => simp [runOps]
  | cons l t ih =>
    rw [List.map_cons, runOps_cons, ih]
    simp [runOp]

/-- C9: `_atomic_write_csv` serializes the whole table to a fresh temp file in
the target's directory and only then renames it over the target: after any
proper prefix of its steps the target still holds the old content, after all
steps it holds the complete new serialization, and at every point it is one of
the two — never a partial write. -/
theorem C9_atomic_replace (df : DF) (path : String) (old : Option (List String)) (n : Nat) :
    ((runOps (initW old) ((atomic_write_ops df path).take n)).target = old ∨
      (runOps (initW old) ((atomic_write_ops df path).take n)).target =
        some (serializeDF df)) ∧
    (n < (atomic_write_ops df path).length →
      (runOps (initW old) ((atomic_write_ops df path).take n)).target = old) ∧
    ((atomic_write_ops df path).length ≤ n →
      runOps (initW old) ((atomic_write_ops df path).take n) =
        ⟨some (serializeDF df), some (dirOrDot path), serializeDF df⟩) ∧
    (1 ≤ n →
      (runOps (initW old) ((atomic_write_ops df path).take n)).tempDir =
        some (dirOrDot path)) := by
  have hlen : (atomic_write_ops df path).length = (serializeDF df).length + 2 := by
    simp [atomic_write_ops]
  have hpart : ∀ m, m ≤ (serializeDF df).length →
      runOps (initW old) ((atomic_write_ops df path).take (m + 1)) =
        ⟨old, some (dirOrDot path), (serializeDF df).take m⟩ := by
    intro m hm
    rw [atomic_write_ops,
      List.take_append_of_le_length (by simpa using Nat.succ_le_succ hm),
      List.take_succ_cons, runOps_cons, ← List.map_take, runOps_writeLines]
    rfl
  have h1 : runOps (initW old) (WOp.mkstemp (dirOrDot path) ::
      (serializeDF df).map WOp.writeLine) =
      ⟨old, some (dirOrDot path), serializeDF df⟩ := by
    rw [runOps_cons, runOps_writeLines]
    rfl
  have hfull : (atomic_write_ops df path).length ≤ n →
      runOps (initW old) ((atomic_write_ops df path).take n) =
        ⟨some (serializeDF df), some (dirOrDot path), serializeDF df⟩ := by
    intro hge
    rw [List.take_of_length_le hge, atomic_write_ops, runOps_append, h1]
    rfl
  have htarget_old : n < (atomic_write_ops df path).length →
      (runOps (initW old) ((atomic_write_ops df path).take n)).target = old := by
    intro hlt
    cases n with
    | zero => rfl
    | succ m =>
      rw [hpart m (by omega)]
  refine ⟨?_, htarget_old, hfull, ?_⟩
  · by_cases hlt : n < (atomic_write_ops df path).length
    · exact Or.inl (htarget_old hlt)
    · right
      rw [hfull (by omega)]
  · intro h1
    by_cases hlt : n < (atomic_write_ops df path).length
    · cases n with
      | zero => omega
      | succ m =>
        rw [hpart m (by omega)]
    · rw [hfull (by omega)]

/-- Witness for C9: a one-row table, a path in a subdirectory, a pre-existing
old file content and a prefix length inside the write. -/
theorem C9_atomic_replace_witness :
    (((runOps (initW (some ["x"])) ((atomic_write_ops sunriseT "data/h.csv").take 2)).target =
          some ["x"] ∨
      (runOps (initW (some ["x"])) ((atomic_write_ops sunriseT "data/h.csv").take 2)).target =
        some (serializeDF sunriseT)) ∧
    (2 < (atomic_write_ops sunriseT "data/h.csv").length →
      (runOps (initW (some ["x"])) ((atomic_write_ops sunriseT "data/h.csv").take 2)).target =
        some ["x"]) ∧
    ((atomic_write_ops sunriseT "data/h.csv").length ≤ 2 →
      runOps (initW (some ["x"])) ((atomic_write_ops sunriseT "data/h.csv").take 2) =
        ⟨some (serializeDF sunriseT), some (dirOrDot "data/h.csv"), serializeDF sunriseT⟩) ∧
    (1 ≤ 2 →
      (runOps (initW (some ["x"])) ((atomic_write_ops sunriseT "data/h.csv").take 2)).tempDir =
        some (dirOrDot "data/h.csv"))) ∧
    2 < (atomic_write_ops sunriseT "data/h.csv").length ∧
    dirOrDot "data/h.csv" = "data" ∧
    (runOps (initW (some ["x"])) (atomic_write_ops sunriseT "data/h.csv")).target =
      some (serializeDF sunriseT) :=
  ⟨C9_atomic_replace sunriseT "data/h.csv" (some ["x"]) 2, by decide, by decide, by decide⟩

/-- C4 counterexample to the claim as stated: the third stage is a regex
search (`str.contains` with its default `regex=True`), not literal substring
containment.  The target "grand.hotel" is not a substring of "grand hotel",
so the claim's substring stage predicts no match and a no-match failure — yet
the program's matcher matches that row (`.` matches any character) and the
decrement succeeds. -/
theorem C4_counterexample :
    segIn (pyLower (pyStrip "grand.hotel")).data
      (pyLower (rowColTrim (rowAt (safe_read_csv dotT) 0) "name")).data = false ∧
    subMaskLiteral (safe_read_csv dotT) (pyStrip "grand.hotel") = [false] ∧
    match_rows (safe_read_csv dotT) "grand.hotel" = [true] ∧
    (decrement_room_availability (some dotT) "grand.hotel" 1).2 = Except.ok 4 := by
  decide

/-- C4 (amended): the matcher runs the exact stage, then the lower-cased
stage, then the containment stage, and a later stage is consulted only when
every earlier stage matched nothing.  The third stage searches the lower-cased
target as a regular expression in the lower-cased trimmed cell, which agrees
with the claim's literal substring reading on targets made of regex-literal
characters; a query "Grand Hotel" against a table holding both "Grand Hotel"
and "grand hotel" matches and updates only the exact-case row, while the
regex target "grand.hotel" does match the row "grand hotel". -/
theorem C4_stage_order (df : DF) (t : String) :
    ((exactMask df (pyStrip t)).any id = true →
      match_rows df t = exactMask df (pyStrip t)) ∧
    ((exactMask df (pyStrip t)).any id = false →
      (lowerMask df (pyStrip t)).any id = true →
      match_rows df t = lowerMask df (pyStrip t)) ∧
    ((exactMask df (pyStrip t)).any id = false →
      (lowerMask df (pyStrip t)).any id = false →
      match_rows df t = subMask df (pyStrip t)) ∧
    ((pyLower (pyStrip t)).data.all reLiteral = true →
      subMask df (pyStrip t) = subMaskLiteral df (pyStrip t)) ∧
    match_rows (safe_read_csv grandT) "Grand Hotel" = [true, false] ∧
    (decrement_room_availability (some grandT) "Grand Hotel" 1).2 = Except.ok 4 ∧
    getCellAt ((decrement_room_availability (some grandT) "Grand Hotel" 1).1.getD dfEmpty)
      1 "rooms_available" = CVal.str "5" ∧
    getCellAt ((decrement_room_availability (some grandT) "Grand Hotel" 1).1.getD dfEmpty)
      1 "name" = CVal.str "grand hotel" ∧
    match_rows (safe_read_csv dotT) "grand.hotel" = [true] ∧
    (decrement_room_availability (some dotT) "grand.hotel" 1).2 = Except.ok 4 := by
  refine ⟨?_, ?_, ?_, ?_, by decide, by decide, by decide, by decide, by decide, by decide⟩
  · intro h
    unfold match_rows
    dsimp only
    rw [if_pos h]
  · intro h h2
    unfold match_rows
    dsimp only
    rw [if_neg (by simp [h]), if_pos h2]
  · intro h h2
    unfold match_rows
    dsimp only
    rw [if_neg (by simp [h]), if_neg (by simp [h2])]
  · intro h
    unfold subMask subMaskLiteral
    apply List.map_congr_left
    intro r _
    unfold subHit subHitLiteral
    rw [pyContains_eq_segIn _ _ h, pyContains_eq_segIn _ _ h]

/-- Witness for C4 at a case-insensitive query: "GRAND HOTEL" misses the
exact stage and is answered by the lower-cased stage, and as an all-literal
target its containment stage coincides with substring containment. -/
theorem C4_stage_order_witness :
    (exactMask (safe_read_csv grandT) (pyStrip "GRAND HOTEL")).any id = false ∧
    (lowerMask (safe_read_csv grandT) (pyStrip "GRAND HOTEL")).any id = true ∧
    match_rows (safe_read_csv grandT) "GRAND HOTEL" =
      lowerMask (safe_read_csv grandT) (pyStrip "GRAND HOTEL") ∧
    (pyLower (pyStrip "GRAND HOTEL")).data.all reLiteral = true ∧
    subMask (safe_read_csv grandT) (pyStrip "GRAND HOTEL") =
      subMaskLiteral (safe_read_csv grandT) (pyStrip "GRAND HOTEL") :=
  ⟨by decide, by decide,
    (C4_stage_order (safe_read_csv grandT) "GRAND HOTEL").2.1 (by decide) (by decide),
    by decide,
    (C4_stage_order (safe_read_csv grandT) "GRAND HOTEL").2.2.2.1 (by decide)⟩

/-- C5: when several rows match at the winning stage, the mutation touches
exactly the first matching row in file order; every other row of the persisted
table is exactly the (serialized) loaded row it was before. -/
theorem C5_first_match_only (raw : DF) (nm : String) (a : Int) (i : Nat)
    (ha : 0 < a)
    (hi : firstTrueIdx (match_rows (safe_read_csv raw) nm) = some i) :
    (match_rows (safe_read_csv raw) nm).get? i = some true ∧
    (∀ j, j < i → (match_rows (safe_read_csv raw) nm).get? j = some false) ∧
    (∃ out : DF,
      decrement_room_availability (some raw) nm a =
        (some out, Except.ok (max 0 (raAt (safe_read_csv raw) i - a))) ∧
      ∀ j, j ≠ i → out.rows.get? j = (persistDF (safe_read_csv raw)).rows.get? j) ∧
    (∃ out : DF,
      increment_room_availability (some raw) nm a =
        (some out, Except.ok (raAt (safe_read_csv raw) i + a)) ∧
      ∀ j, j ≠ i → out.rows.get? j = (persistDF (safe_read_csv raw)).rows.get? j) := by
  refine ⟨firstTrueIdx_get _ _ hi, firstTrueIdx_first _ _ hi,
    ⟨_, decrement_eq raw nm a i ha hi, ?_⟩, ⟨_, increment_eq raw nm a i ha hi, ?_⟩⟩
  · intro j hj
    exact get?_persist_mutate_ne _ i _ _ j hj
  · intro j hj
    exact get?_persist_mutate_ne _ i _ _ j hj

/-- Witness for C5 at a table with two rows both named "Inn": the first row in
file order wins. -/
theorem C5_first_match_only_witness :
    (0 : Int) < 2 ∧
    firstTrueIdx (match_rows (safe_read_csv dupT) "Inn") = some 0 ∧
    match_rows (safe_read_csv dupT) "Inn" = [true, true] ∧
    ((match_rows (safe_read_csv dupT) "Inn").get? 0 = some true ∧
      (∀ j, j < 0 → (match_rows (safe_read_csv dupT) "Inn").get? j = some false) ∧
      (∃ out : DF,
        decrement_room_availability (some dupT) "Inn" 2 =
          (some out, Except.ok (max 0 (raAt (safe_read_csv dupT) 0 - 2))) ∧
        ∀ j, j ≠ 0 → out.rows.get? j = (persistDF (safe_read_csv dupT)).rows.get? j) ∧
      (∃ out : DF,
        increment_room_availability (some dupT) "Inn" 2 =
          (some out, Except.ok (raAt (safe_read_csv dupT) 0 + 2)) ∧
        ∀ j, j ≠ 0 → out.rows.get? j = (persistDF (safe_read_csv dupT)).rows.get? j)) :=
  ⟨by decide, by decide, by decide,
    C5_first_match_only dupT "Inn" 2 0 (by decide) (by decide)⟩

/-- C6: across a successful mutation the table's row count is preserved, every
non-matched row keeps every cell value (up to the fixed CSV serialization of a
value), and the matched row keeps every column other than `rooms_available`
and `status`. -/
theorem C6_frame (raw : DF) (nm : String) (a : Int) (i : Nat)
    (ha : 0 < a)
    (hi : firstTrueIdx (match_rows (safe_read_csv raw) nm) = some i) :
    (∃ out : DF,
      decrement_room_availability (some raw) nm a =
        (some out, Except.ok (max 0 (raAt (safe_read_csv raw) i - a))) ∧
      out.rows.length = (safe_read_csv raw).rows.length ∧
      (∀ j c, j ≠ i → getCellAt out j c = persistCell (getCellAt (safe_read_csv raw) j c)) ∧
      (∀ c, c ≠ "rooms_available" → c ≠ "status" →
        getCellAt out i c = persistCell (getCellAt (safe_read_csv raw) i c))) ∧
    (∃ out : DF,
      increment_room_availability (some raw) nm a =
        (some out, Except.ok (raAt (safe_read_csv raw) i + a)) ∧
      out.rows.length = (safe_read_csv raw).rows.length ∧
      (∀ j c, j ≠ i → getCellAt out j c = persistCell (getCellAt (safe_read_csv raw) j c)) ∧
      (∀ c, c ≠ "rooms_available" → c ≠ "status" →
        getCellAt out i c = persistCell (getCellAt (safe_read_csv raw) i c))) := by
  have hlength : ∀ x y : CVal,
      (persistDF (setCellAt (setCellAt (safe_read_csv raw) i "rooms_available" x) i
        "status" y)).rows.length = (safe_read_csv raw).rows.length := by
    intro x y
    show ((modifyRow (modifyRow _ i _) i _).map persistRow).length = _
    rw [List.length_map, modifyRow_length, modifyRow_length]
  have hne : ∀ x y : CVal, ∀ j c, j ≠ i →
      getCellAt (persistDF (setCellAt (setCellAt (safe_read_csv raw) i "rooms_available" x) i
        "status" y)) j c = persistCell (getCellAt (safe_read_csv raw) j c) := by
    intro x y j c hj
    unfold getCellAt rowAt
    rw [get?_persist_mutate_ne _ _ _ _ _ hj]
    have : ((persistDF (safe_read_csv raw)).rows.get? j).getD [] =
        persistRow (rowAt (safe_read_csv raw) j) := by
      rw [← rowAt_persistDF]
      rfl
    rw [this, getCell_persistRow]
    rfl
  have hrow_i : ∀ x y : CVal, ∀ c, c ≠ "rooms_available" → c ≠ "status" →
      getCellAt (persistDF (setCellAt (setCellAt (safe_read_csv raw) i "rooms_available" x) i
        "status" y)) i c = persistCell (getCellAt (safe_read_csv raw) i c) := by
    intro x y c h1 h2
    rw [getCellAt_persistDF]
    congr 1
    unfold getCellAt
    rw [rowAt_setCellAt_self, getCell_setCell_ne _ _ _ _ h2, rowAt_setCellAt_self,
      getCell_setCell_ne _ _ _ _ h1]
  exact ⟨⟨_, decrement_eq raw nm a i ha hi, hlength _ _, hne _ _, hrow_i _ _⟩,
    ⟨_, increment_eq raw nm a i ha hi, hlength _ _, hne _ _, hrow_i _ _⟩⟩

/-- Witness for C6 at the two-row Grand Hotel table. -/
theorem C6_frame_witness :
    (0 : Int) < 1 ∧
    firstTrueIdx (match_rows (safe_read_csv grandT) "Grand Hotel") = some 0 ∧
    ((∃ out : DF,
      decrement_room_availability (some grandT) "Grand Hotel" 1 =
        (some out, Except.ok (max 0 (raAt (safe_read_csv grandT) 0 - 1))) ∧
      out.rows.length = (safe_read_csv grandT).rows.length ∧
      (∀ j c, j ≠ 0 → getCellAt out j c = persistCell (getCellAt (safe_read_csv grandT) j c)) ∧
      (∀ c, c ≠ "rooms_available" → c ≠ "status" →
        getCellAt out 0 c = persistCell (getCellAt (safe_read_csv grandT) 0 c))) ∧
    (∃ out : DF,
      increment_room_availability (some grandT) "Grand Hotel" 1 =
        (some out, Except.ok (raAt (safe_read_csv grandT) 0 + 1)) ∧
      out.rows.length = (safe_read_csv grandT).rows.length ∧
      (∀ j c, j ≠ 0 → getCellAt out j c = persistCell (getCellAt (safe_read_csv grandT) j c)) ∧
      (∀ c, c ≠ "rooms_available" → c ≠ "status" →
        getCellAt out 0 c = persistCell (getCellAt (safe_read_csv grandT) 0 c)))) :=
  ⟨by decide, by decide, C6_frame grandT "Grand Hotel" 1 0 (by decide) (by decide)⟩

theorem decrement_eq_mutate (raw : DF) (nm : String) (a : Int) (i : Nat)
    (ha : 0 < a) (hi : firstTrueIdx (match_rows (safe_read_csv raw) nm) = some i) :
    decrement_room_availability (some raw) nm a =
      (some (persistDF (mutate (safe_read_csv raw) i (max 0 (raAt (safe_read_csv raw) i - a)))),
       Except.ok (max 0 (raAt (safe_read_csv raw) i - a))) :=
  decrement_eq raw nm a i ha hi

theorem increment_eq_mutate (raw : DF) (nm : String) (a : Int) (i : Nat)
    (ha : 0 < a) (hi : firstTrueIdx (match_rows (safe_read_csv raw) nm) = some i) :
    increment_room_availability (some raw) nm a =
      (some (persistDF (mutate (safe_read_csv raw) i (raAt (safe_read_csv raw) i + a))),
       Except.ok (raAt (safe_read_csv raw) i + a)) :=
  increment_eq raw nm a i ha hi

theorem raAt_mutate2 (df : DF) (i : Nat) (v : Int)
    (hpres : (List.lookup "rooms_available" (rowAt df i)).isSome = true) :
    raAt (mutate df i v) i = v :=
  raAt_mutate df i v (statusLabel v) hpres

theorem lnf_mutate2 (df : DF) (i : Nat) (v : Int) (hl : lnfB df = true) :
    lnfB (mutate df i v) = true :=
  lnf_mutate df i v hl

theorem match_rows_mutate (df : DF) (i : Nat) (v : Int) (t : String) :
    match_rows (mutate df i v) t = match_rows df t := by
  unfold mutate
  rw [match_rows_setCellAt _ _ _ _ _ (by decide) (by decide),
    match_rows_setCellAt _ _ _ _ _ (by decide) (by decide)]

theorem pres_mutate (df : DF) (i : Nat) (v : Int) :
    (List.lookup "rooms_available" (rowAt (mutate df i v) i)).isSome =
      (List.lookup "rooms_available" (rowAt df i)).isSome := by
  unfold mutate
  rw [rowAt_setCellAt_self, lookup_isSome_setCell, rowAt_setCellAt_self, lookup_isSome_setCell]

theorem reload_mutate (df : DF) (i : Nat) (v : Int) (hl : lnfB df = true)
    (hra : hasCol df "rooms_available" = true) (hst : hasCol df "status" = true) :
    safe_read_csv (persistDF (mutate df i v)) = mutate df i v :=
  load_persist_id (mutate df i v) (lnf_mutate2 df i v hl) hra hst

/-- C7 (amended): the loader removes all commas, trims whitespace, strips one
trailing literal ".0", then parses the cell as an optionally signed decimal
numeral — optional fractional part, optional `e`/`E` exponent — truncating
the value toward zero; finite numerals outside that grammar coerce to 0, and
a missing column defaults every row to 0.  Thus "1,200.0" normalizes to 1200,
the non-integer numeral "12.5" becomes 12 rather than the 0 the original
claim predicts, and exponent numerals parse too: "1e3" becomes 1000 and
"2e-3" becomes 0.  (Non-finite spellings such as "inf", on which the
program's `astype(int)` raises, are outside this model.) -/
theorem C7_normalization (raw : DF) (i : Nat) (r : Row) :
    (raw.rows.get? i = some r → hasCol raw "rooms_available" = true →
      (List.lookup "rooms_available" r).isSome = true →
      getCellAt (safe_read_csv raw) i "rooms_available" =
        CVal.int (normRA (asStr (getCell r "rooms_available")))) ∧
    (hasCol raw "rooms_available" = false → wfB raw = true → i < raw.rows.length →
      getCellAt (safe_read_csv raw) i "rooms_available" = CVal.int 0) ∧
    normRA "1,200.0" = 1200 ∧
    normRA "12.5" = 12 ∧
    normRA "  42  " = 42 ∧
    normRA "1e3" = 1000 ∧
    normRA "1.25E2" = 125 ∧
    normRA "2e-3" = 0 ∧
    normRA "-12.5" = -12 ∧
    normRA "double.bed" = 0 ∧
    normRA "" = 0 := by
  refine ⟨?_, ?_, by decide, by decide, by decide, by decide, by decide, by decide,
    by decide, by decide, by decide⟩
  · intro hr hra hp
    unfold getCellAt rowAt
    rw [safe_read_rows, List.get?_map, hr]
    show getCell (loadRow (hasCol raw "rooms_available") (hasCol raw "status") r)
      "rooms_available" = _
    rw [hra, getCell_loadRow_ra_present _ _ hp]
  · intro hra hw hlen
    have hget : raw.rows.get? i = some (raw.rows.get ⟨i, hlen⟩) := List.get?_eq_get hlen
    have hmem : raw.rows.get ⟨i, hlen⟩ ∈ raw.rows := List.get_mem raw.rows i hlen
    have hkeys : (raw.rows.get ⟨i, hlen⟩).map Prod.fst = raw.header :=
      beq_iff_eq.mp (by simpa using List.all_eq_true.mp hw _ hmem)
    have hnotmem : ¬ "rooms_available" ∈ raw.header := by
      rw [hasCol_eq] at hra
      simpa using hra
    have hnone : List.lookup "rooms_available" (raw.rows.get ⟨i, hlen⟩) = none := by
      rw [List.lookup_eq_none_iff]
      intro p hp2
      have hpH : p.1 ∈ raw.header := by
        rw [← hkeys]
        exact List.mem_map_of_mem _ hp2
      simp only [bne_iff_ne, ne_eq]
      intro e
      exact hnotmem (e ▸ hpH)
    unfold getCellAt rowAt
    rw [safe_read_rows, List.get?_map, hget]
    show getCell (loadRow (hasCol raw "rooms_available") (hasCol raw "status")
      (raw.rows.get ⟨i, hlen⟩)) "rooms_available" = _
    rw [hra, getCell_loadRow_ra_absent _ _ hnone]

/-- Witness for C7 at the Sunrise Inn table. -/
theorem C7_normalization_witness :
    sunriseT.rows.get? 0 =
      some [("name", CVal.str "Sunrise Inn"), ("rooms_available", CVal.str "10")] ∧
    hasCol sunriseT "rooms_available" = true ∧
    (List.lookup "rooms_available"
      [("name", CVal.str "Sunrise Inn"), ("rooms_available", CVal.str "10")]).isSome = true ∧
    getCellAt (safe_read_csv sunriseT) 0 "rooms_available" =
      CVal.int (normRA (asStr (getCell
        [("name", CVal.str "Sunrise Inn"), ("rooms_available", CVal.str "10")]
        "rooms_available"))) :=
  ⟨by decide, by decide, by decide,
    (C7_normalization sunriseT 0
      [("name", CVal.str "Sunrise Inn"), ("rooms_available", CVal.str "10")]).1
      (by decide) (by decide) (by decide)⟩

/-- C7 counterexample: the claim as stated says a cell that does not parse as
an integer coerces to 0; on the raw cell "12.5" the loader instead produces
the truncated integer 12. -/
theorem C7_counterexample :
    getCellAt (safe_read_csv fracT) 0 "rooms_available" = CVal.int 12 ∧
    CVal.int 12 ≠ CVal.int 0 := by decide

/-- C10 (amended): on a non-empty table that has a name column and in which
no name or hotel_name cell trims to the empty string, a target that trims to
empty misses the first two stages, reaches the containment stage and there
matches every row — a missing name renders as the string "nan" and matches
too — so the operation does not fail with a no-match error but mutates the
table's first row outright, not the first row with a non-missing name.
Tables where some cell trims to empty are excluded: there the exact stage
already matches, as on the table whose second row's name is all whitespace,
where the empty target mutates that second row. -/
theorem C10_empty_target (raw : DF) (nm : String) (a : Int)
    (hne : (safe_read_csv raw).rows ≠ [])
    (hN : hasCol (safe_read_csv raw) "name" = true)
    (hstrip : pyStrip nm = "")
    (hnoempty : ∀ r ∈ (safe_read_csv raw).rows,
      rowColTrim r "name" ≠ "" ∧ rowColTrim r "hotel_name" ≠ "")
    (ha : 0 < a) :
    match_rows (safe_read_csv raw) nm = (safe_read_csv raw).rows.map (fun _ => true) ∧
    firstTrueIdx (match_rows (safe_read_csv raw) nm) = some 0 ∧
    decrement_room_availability (some raw) nm a =
      (some (persistDF (mutate (safe_read_csv raw) 0
        (max 0 (raAt (safe_read_csv raw) 0 - a)))),
       Except.ok (max 0 (raAt (safe_read_csv raw) 0 - a))) ∧
    (decrement_room_availability (some wsT) "" 1).2 = Except.ok 1 ∧
    getCellAt ((decrement_room_availability (some wsT) "" 1).1.getD dfEmpty) 0
      "rooms_available" = CVal.str "5" := by
  have hex : (exactMask (safe_read_csv raw) (pyStrip nm)).any id = false := by
    rw [List.any_eq_false]
    intro b hb
    obtain ⟨r, hr, rfl⟩ := List.mem_map.mp hb
    show ¬ exactHit _ _ _ r = true
    rw [hN, hstrip]
    simp [exactHit, beq_eq_false_iff_ne.mpr (hnoempty r hr).1,
      beq_eq_false_iff_ne.mpr (hnoempty r hr).2]
  have hlo : (lowerMask (safe_read_csv raw) (pyStrip nm)).any id = false := by
    rw [List.any_eq_false]
    intro b hb
    obtain ⟨r, hr, rfl⟩ := List.mem_map.mp hb
    show ¬ lowerHit _ _ _ r = true
    rw [hN, hstrip]
    have hne2 : pyLower (rowColTrim r "name") ≠ pyLower "" :=
      fun e => (hnoempty r hr).1 (pyLower_eq_empty _ e)
    have hne3 : pyLower (rowColTrim r "hotel_name") ≠ pyLower "" :=
      fun e => (hnoempty r hr).2 (pyLower_eq_empty _ e)
    simp [lowerHit, beq_eq_false_iff_ne.mpr hne2, beq_eq_false_iff_ne.mpr hne3]
  have hsub : subMask (safe_read_csv raw) (pyStrip nm) =
      (safe_read_csv raw).rows.map (fun _ => true) := by
    unfold subMask
    apply List.map_congr_left
    intro r hr
    rw [hN, hstrip]
    simp [subHit, show (pyLower "").data = ([] : List Char) from rfl, pyContains_nil]
  have hmask : match_rows (safe_read_csv raw) nm =
      (safe_read_csv raw).rows.map (fun _ => true) := by
    unfold match_rows
    dsimp only
    rw [if_neg (by simp [hex]), if_neg (by simp [hlo]), hsub]
  have hfirst : firstTrueIdx (match_rows (safe_read_csv raw) nm) = some 0 := by
    rw [hmask]
    cases hrows : (safe_read_csv raw).rows with
    | nil => exact absurd hrows hne
    | cons r t => rfl
  exact ⟨hmask, hfirst, decrement_eq_mutate raw nm a 0 ha hfirst, by decide, by decide⟩

/-- Witness for C10 at a table whose first row has a missing name: the
whitespace-only target matches everything and row 0 is the one mutated. -/
theorem C10_empty_target_witness :
    (safe_read_csv nanT).rows ≠ [] ∧
    hasCol (safe_read_csv nanT) "name" = true ∧
    pyStrip "  " = "" ∧
    (∀ r ∈ (safe_read_csv nanT).rows,
      rowColTrim r "name" ≠ "" ∧ rowColTrim r "hotel_name" ≠ "") ∧
    (0 : Int) < 1 ∧
    (match_rows (safe_read_csv nanT) "  " = (safe_read_csv nanT).rows.map (fun _ => true) ∧
      firstTrueIdx (match_rows (safe_read_csv nanT) "  ") = some 0 ∧
      decrement_room_availability (some nanT) "  " 1 =
        (some (persistDF (mutate (safe_read_csv nanT) 0
          (max 0 (raAt (safe_read_csv nanT) 0 - 1)))),
         Except.ok (max 0 (raAt (safe_read_csv nanT) 0 - 1))) ∧
      (decrement_room_availability (some wsT) "" 1).2 = Except.ok 1 ∧
      getCellAt ((decrement_room_availability (some wsT) "" 1).1.getD dfEmpty) 0
        "rooms_available" = CVal.str "5") :=
  ⟨by decide, by decide, by decide, by decide, by decide,
    C10_empty_target nanT "  " 1 (by decide) (by decide) (by decide) (by decide)
      (by decide)⟩

/-- C10 counterexample: with an empty target on a table whose first row has a
missing (NaN) name, the code mutates that first row (returning 4 from its 5
rooms) and leaves the first non-missing-name row ("A", 2 rooms) untouched,
whereas the claim predicts the row named "A" would be mutated (returning 1). -/
theorem C10_counterexample :
    getCell (nanT.rows.getD 0 []) "name" = CVal.na ∧
    (decrement_room_availability (some nanT) "" 1).2 = Except.ok 4 ∧
    getCellAt ((decrement_room_availability (some nanT) "" 1).1.getD dfEmpty) 0
      "rooms_available" = CVal.str "4" ∧
    getCellAt ((decrement_room_availability (some nanT) "" 1).1.getD dfEmpty) 1
      "rooms_available" = CVal.str "2" ∧
    (4 : Int) ≠ 1 := by decide

theorem mem_of_lookup_eq_some (r : Row) (c : String) (w : CVal)
    (h : List.lookup c r = some w) : (c, w) ∈ r := by
  obtain ⟨l1, l2, hsplit, h2⟩ := List.lookup_eq_some_iff.mp h
  rw [hsplit]
  exact List.mem_append.mpr (Or.inr (List.mem_cons_self _ _))

theorem persist_bridge (r : Row)
    (hl : r.all (fun kv => lnfCellB kv.1 kv.2) = true) :
    normRA (asStr (getCell (persistRow r) "rooms_available")) =
      cellInt (getCell r "rooms_available") ∧
    ((getCell (persistRow r) "status") == CVal.str "còn") =
      ((getCell r "status") == CVal.str "còn") := by
  constructor
  · rw [getCell_persistRow]
    unfold getCell
    cases hlk : List.lookup "rooms_available" r with
    | none => decide
    | some w =>
      have hmem := mem_of_lookup_eq_some r _ _ hlk
      have hcell := List.all_eq_true.mp hl _ hmem
      cases w with
      | int n => simp [Option.getD_some, persistCell, asStr, cellInt, normRA_toString]
      | na => simp [lnfCellB] at hcell
      | str s => simp [lnfCellB] at hcell
  · rw [getCell_persistRow]
    unfold getCell
    cases hlk : List.lookup "status" r with
    | none => rfl
    | some w =>
      have hmem := mem_of_lookup_eq_some r _ _ hlk
      have hcell := List.all_eq_true.mp hl _ hmem
      have hfile : fileCellB w = true := by
        simpa [lnfCellB, show ¬ ("status" : String) = "rooms_available" from by decide]
          using hcell
      simp only [Option.getD_some]
      rw [persistCell_file w hfile]

theorem rowAt_mutate_self (df : DF) (i : Nat) (v : Int) :
    rowAt (mutate df i v) i =
      setCell (setCell (rowAt df i) "rooms_available" (CVal.int v)) "status"
        (CVal.str (statusLabel v)) := by
  unfold mutate
  rw [rowAt_setCellAt_self, rowAt_setCellAt_self]

theorem matched_row_status (df : DF) (i : Nat) (v : Int)
    (hpresRA : (List.lookup "rooms_available" (rowAt df i)).isSome = true)
    (hpresST : (List.lookup "status" (rowAt df i)).isSome = true) :
    rowStatusOkB (rowAt (persistDF (mutate df i v)) i) = true := by
  rw [rowAt_persistDF, rowAt_mutate_self]
  unfold rowStatusOkB
  rw [getCell_persistRow, getCell_persistRow,
    getCell_setCell_present _ _ _ (by rw [lookup_isSome_setCell]; exact hpresST),
    getCell_setCell_ne _ _ _ _ (by decide : ("rooms_available" : String) ≠ "status"),
    getCell_setCell_present _ _ _ hpresRA,
    persistCell_file (CVal.str (statusLabel v)) (statusLabel_ne_empty v),
    show persistCell (CVal.int v) = CVal.str (toString v) from rfl,
    show asStr (CVal.str (toString v)) = toString v from rfl,
    normRA_toString, statusLabel_beq]
  exact beq_self_eq_true _

theorem mutation_inv (df : DF) (i : Nat) (v : Int)
    (hlnf : lnfB df = true)
    (hpresRA : (List.lookup "rooms_available" (rowAt df i)).isSome = true)
    (hpresST : (List.lookup "status" (rowAt df i)).isSome = true)
    (hlen : i < df.rows.length)
    (hv : 0 ≤ v) (hInv : loadedInvB df = true) :
    persistedInvB (persistDF (mutate df i v)) = true := by
  unfold persistedInvB
  apply (all_iff_get? _ _).mpr
  intro j r2 hj
  rw [show (persistDF (mutate df i v)).rows =
    (modifyRow (modifyRow df.rows i (fun r => setCell r "rooms_available" (CVal.int v))) i
      (fun r => setCell r "status" (CVal.str (statusLabel v)))).map persistRow from rfl] at hj
  by_cases hji : j = i
  · subst hji
    rw [List.get?_map, modifyRow_get?, if_pos rfl, modifyRow_get?, if_pos rfl] at hj
    have hrj : df.rows.get? j = some (df.rows.get ⟨j, hlen⟩) := List.get?_eq_get hlen
    rw [hrj] at hj
    obtain rfl : r2 = persistRow (setCell (setCell (df.rows.get ⟨j, hlen⟩)
        "rooms_available" (CVal.int v)) "status" (CVal.str (statusLabel v))) := by
      simpa using hj.symm
    have hrow : rowAt df j = df.rows.get ⟨j, hlen⟩ := by
      unfold rowAt
      rw [hrj]
      rfl
    rw [Bool.and_eq_true]
    constructor
    · have hra : getCell (persistRow (setCell (setCell (df.rows.get ⟨j, hlen⟩)
          "rooms_available" (CVal.int v)) "status" (CVal.str (statusLabel v))))
          "rooms_available" = CVal.str (toString v) := by
        rw [getCell_persistRow,
          getCell_setCell_ne _ _ _ _ (by decide : ("rooms_available" : String) ≠ "status"),
          getCell_setCell_present _ _ _ (hrow ▸ hpresRA)]
        rfl
      rw [hra, show asStr (CVal.str (toString v)) = toString v from rfl, normRA_toString]
      exact decide_eq_true hv
    · have hm := matched_row_status df j v hpresRA hpresST
      rw [rowAt_persistDF, rowAt_mutate_self, hrow] at hm
      exact hm
  · rw [List.get?_map, modifyRow_get?, if_neg hji, modifyRow_get?, if_neg hji] at hj
    cases hx : df.rows.get? j with
    | none => rw [hx] at hj; cases hj
    | some rj =>
      rw [hx] at hj
      obtain rfl : r2 = persistRow rj := by simpa using hj.symm
      have hmem : rj ∈ df.rows := List.get?_mem hx
      have hlnfr : rj.all (fun kv => lnfCellB kv.1 kv.2) = true :=
        List.all_eq_true.mp hlnf rj hmem
      have hInvr : invRowB rj = true := List.all_eq_true.mp hInv rj hmem
      obtain ⟨b1, b2⟩ := persist_bridge rj hlnfr
      unfold invRowB at hInvr
      rw [Bool.and_eq_true] at hInvr
      rw [Bool.and_eq_true]
      constructor
      · rw [b1]
        exact hInvr.1
      · unfold rowStatusOkB
        rw [b1, b2]
        exact hInvr.2

/-- C3 (amended): after a successful mutation the matched row's status is
the `còn` token exactly when its new availability is positive; and when every
loaded row satisfied the invariant (non-negative availability, consistent
status) before the call — as when the status column was derived by the loader
— then every row of the persisted table satisfies it after.  Untouched rows
merely keep their prior status, which may be stale if the source file supplied
an inconsistent status column. -/
theorem C3_status_invariant (raw : DF) (nm : String) (a : Int) (i : Nat)
    (hw : wfB raw = true) (hf : fileB raw = true) (ha : 0 < a)
    (hi : firstTrueIdx (match_rows (safe_read_csv raw) nm) = some i) :
    (∃ out : DF,
      decrement_room_availability (some raw) nm a =
        (some out, Except.ok (max 0 (raAt (safe_read_csv raw) i - a))) ∧
      rowStatusOkB (rowAt out i) = true ∧
      (loadedInvB (safe_read_csv raw) = true → persistedInvB out = true)) ∧
    (∃ out : DF,
      increment_room_availability (some raw) nm a =
        (some out, Except.ok (raAt (safe_read_csv raw) i + a)) ∧
      rowStatusOkB (rowAt out i) = true ∧
      (loadedInvB (safe_read_csv raw) = true → persistedInvB out = true)) := by
  have hlen : i < (safe_read_csv raw).rows.length := by
    have h1 := firstTrueIdx_lt _ _ hi
    rwa [match_rows_length] at h1
  have hwl : wfB (safe_read_csv raw) = true := wf_safe_read raw hw
  have hlnf : lnfB (safe_read_csv raw) = true := lnf_safe_read raw hf
  have hpresRA : (List.lookup "rooms_available" (rowAt (safe_read_csv raw) i)).isSome = true :=
    lookup_present_of_wf _ hwl i hlen _ (safe_read_hasRA raw)
  have hpresST : (List.lookup "status" (rowAt (safe_read_csv raw) i)).isSome = true :=
    lookup_present_of_wf _ hwl i hlen _ (safe_read_hasStatus raw)
  constructor
  · refine ⟨_, decrement_eq_mutate raw nm a i ha hi,
      matched_row_status _ i _ hpresRA hpresST, ?_⟩
    intro hInv
    exact mutation_inv _ i _ hlnf hpresRA hpresST hlen (le_max_left 0 _) hInv
  · refine ⟨_, increment_eq_mutate raw nm a i ha hi,
      matched_row_status _ i _ hpresRA hpresST, ?_⟩
    intro hInv
    have hgetmem : (safe_read_csv raw).rows.get? i = some (rowAt (safe_read_csv raw) i) := by
      unfold rowAt
      rw [List.get?_eq_get hlen]
      rfl
    have hmem : rowAt (safe_read_csv raw) i ∈ (safe_read_csv raw).rows :=
      List.get?_mem hgetmem
    have hInvi : invRowB (rowAt (safe_read_csv raw) i) = true :=
      List.all_eq_true.mp hInv _ hmem
    have hc : 0 ≤ raAt (safe_read_csv raw) i := by
      unfold invRowB at hInvi
      rw [Bool.and_eq_true] at hInvi
      exact of_decide_eq_true hInvi.1
    exact mutation_inv _ i _ hlnf hpresRA hpresST hlen (by omega) hInv

/-- Witness for C3 at the Sunrise Inn table (whose status column is derived
by the loader and hence consistent). -/
theorem C3_status_invariant_witness :
    wfB sunriseT = true ∧ fileB sunriseT = true ∧ (0 : Int) < 3 ∧
    firstTrueIdx (match_rows (safe_read_csv sunriseT) "Sunrise Inn") = some 0 ∧
    loadedInvB (safe_read_csv sunriseT) = true ∧
    ((∃ out : DF,
      decrement_room_availability (some sunriseT) "Sunrise Inn" 3 =
        (some out, Except.ok (max 0 (raAt (safe_read_csv sunriseT) 0 - 3))) ∧
      rowStatusOkB (rowAt out 0) = true ∧
      (loadedInvB (safe_read_csv sunriseT) = true → persistedInvB out = true)) ∧
    (∃ out : DF,
      increment_room_availability (some sunriseT) "Sunrise Inn" 3 =
        (some out, Except.ok (raAt (safe_read_csv sunriseT) 0 + 3)) ∧
      rowStatusOkB (rowAt out 0) = true ∧
      (loadedInvB (safe_read_csv sunriseT) = true → persistedInvB out = true))) :=
  ⟨by decide, by decide, by decide, by decide, by decide,
    C3_status_invariant sunriseT "Sunrise Inn" 3 0 (by decide) (by decide) (by decide)
      (by decide)⟩

/-- C3 counterexample: a table whose second row arrives with a stale status
(`hết` while 5 rooms are available) is mutated on its first row; the persisted
table still carries the inconsistent status on the untouched second row, so
"status is consistent for every row after every mutation" fails as stated. -/
theorem C3_counterexample :
    (decrement_room_availability (some staleT) "A" 1).2 = Except.ok 4 ∧
    statusConsistentB ((decrement_room_availability (some staleT) "A" 1).1.getD dfEmpty) =
      false ∧
    getCellAt ((decrement_room_availability (some staleT) "A" 1).1.getD dfEmpty) 1
      "rooms_available" = CVal.str "5" ∧
    getCellAt ((decrement_room_availability (some staleT) "A" 1).1.getD dfEmpty) 1
      "status" = CVal.str "hết" := by decide

/-- C2: decrement followed by increment with the same amount on the same
hotel restores the original availability when the amount is at most the
original value; when it exceeds it, the decrement clamps to 0 and the
subsequent increment does not restore the original value. -/
theorem C2_roundtrip (raw : DF) (nm : String) (a : Int) (i : Nat)
    (hw : wfB raw = true) (hf : fileB raw = true) (ha : 0 < a)
    (hi : firstTrueIdx (match_rows (safe_read_csv raw) nm) = some i) :
    (a ≤ raAt (safe_read_csv raw) i →
      ∃ mid fin : DF,
        decrement_room_availability (some raw) nm a =
          (some mid, Except.ok (raAt (safe_read_csv raw) i - a)) ∧
        increment_room_availability (some mid) nm a =
          (some fin, Except.ok (raAt (safe_read_csv raw) i)) ∧
        raAt (safe_read_csv fin) i = raAt (safe_read_csv raw) i) ∧
    (raAt (safe_read_csv raw) i < a →
      ∃ mid fin : DF, ∃ v : Int,
        decrement_room_availability (some raw) nm a = (some mid, Except.ok 0) ∧
        increment_room_availability (some mid) nm a = (some fin, Except.ok v) ∧
        v ≠ raAt (safe_read_csv raw) i) := by
  have hlen : i < (safe_read_csv raw).rows.length := by
    have h1 := firstTrueIdx_lt _ _ hi
    rwa [match_rows_length] at h1
  have hwl : wfB (safe_read_csv raw) = true := wf_safe_read raw hw
  have hlnf : lnfB (safe_read_csv raw) = true := lnf_safe_read raw hf
  have hpresRA : (List.lookup "rooms_available" (rowAt (safe_read_csv raw) i)).isSome = true :=
    lookup_present_of_wf _ hwl i hlen _ (safe_read_hasRA raw)
  have hra : hasCol (safe_read_csv raw) "rooms_available" = true := safe_read_hasRA raw
  have hst : hasCol (safe_read_csv raw) "status" = true := safe_read_hasStatus raw
  have hsecond : ∀ v1 : Int,
      increment_room_availability (some (persistDF (mutate (safe_read_csv raw) i v1))) nm a =
        (some (persistDF (mutate (mutate (safe_read_csv raw) i v1) i (v1 + a))),
         Except.ok (v1 + a)) := by
    intro v1
    have hreload : safe_read_csv (persistDF (mutate (safe_read_csv raw) i v1)) =
        mutate (safe_read_csv raw) i v1 := reload_mutate _ i v1 hlnf hra hst
    have hi2 : firstTrueIdx (match_rows
        (safe_read_csv (persistDF (mutate (safe_read_csv raw) i v1))) nm) = some i := by
      rw [hreload, match_rows_mutate]
      exact hi
    have h2 := increment_eq_mutate (persistDF (mutate (safe_read_csv raw) i v1)) nm a i ha hi2
    rw [hreload, raAt_mutate2 _ _ _ hpresRA] at h2
    exact h2
  constructor
  · intro hle
    have hmax : max 0 (raAt (safe_read_csv raw) i - a) = raAt (safe_read_csv raw) i - a :=
      max_eq_right (by omega)
    have h1 := decrement_eq_mutate raw nm a i ha hi
    rw [hmax] at h1
    have h2 := hsecond (raAt (safe_read_csv raw) i - a)
    rw [show raAt (safe_read_csv raw) i - a + a = raAt (safe_read_csv raw) i by omega] at h2
    refine ⟨_, _, h1, h2, ?_⟩
    rw [reload_mutate _ i _ (lnf_mutate2 _ i _ hlnf) hra hst]
    have hpres3 : (List.lookup "rooms_available"
        (rowAt (mutate (safe_read_csv raw) i (raAt (safe_read_csv raw) i - a)) i)).isSome =
        true := by
      rw [pres_mutate]
      exact hpresRA
    exact raAt_mutate2 _ _ _ hpres3
  · intro hlt
    have hmax : max 0 (raAt (safe_read_csv raw) i - a) = 0 := max_eq_left (by omega)
    have h1 := decrement_eq_mutate raw nm a i ha hi
    rw [hmax] at h1
    have h2 := hsecond 0
    rw [show (0 : Int) + a = a by omega] at h2
    exact ⟨_, _, a, h1, h2, by omega⟩

/-- Witness for C2 at the Sunrise Inn table: 3 ≤ 10 rooms, so the round trip
restores 10; the clamping branch is also instantiated (amount 12 > 10). -/
theorem C2_roundtrip_witness :
    wfB sunriseT = true ∧ fileB sunriseT = true ∧ (0 : Int) < 3 ∧
    firstTrueIdx (match_rows (safe_read_csv sunriseT) "Sunrise Inn") = some 0 ∧
    (3 : Int) ≤ raAt (safe_read_csv sunriseT) 0 ∧
    (∃ mid fin : DF,
      decrement_room_availability (some sunriseT) "Sunrise Inn" 3 =
        (some mid, Except.ok (raAt (safe_read_csv sunriseT) 0 - 3)) ∧
      increment_room_availability (some mid) "Sunrise Inn" 3 =
        (some fin, Except.ok (raAt (safe_read_csv sunriseT) 0)) ∧
      raAt (safe_read_csv fin) 0 = raAt (safe_read_csv sunriseT) 0) ∧
    raAt (safe_read_csv sunriseT) 0 < 12 ∧
    (∃ mid fin : DF, ∃ v : Int,
      decrement_room_availability (some sunriseT) "Sunrise Inn" 12 = (some mid, Except.ok 0) ∧
      increment_room_availability (some mid) "Sunrise Inn" 12 = (some fin, Except.ok v) ∧
      v ≠ raAt (safe_read_csv sunriseT) 0) :=
  ⟨by decide, by decide, by decide, by decide, by decide,
    (C2_roundtrip sunriseT "Sunrise Inn" 3 0 (by decide) (by decide) (by decide)
      (by decide)).1 (by decide),
    by decide,
    (C2_roundtrip sunriseT "Sunrise Inn" 12 0 (by decide) (by decide) (by decide)
      (by decide)).2 (by decide)⟩

end Hotel
